import Mathlib

/-!
Shallow embedding of the core components of the clewdr reverse proxy and
proofs about them.  Every definition mirrors a named function of the Rust
source; strings are modelled as `String` or `List Char`, raw byte buffers
as `List Nat`, timestamps as `Int` (seconds), and machine counters as
`Nat`.  Fallible operations return `Except`/`Option`, and asynchronous
side effects (actor messages, spawned persistence tasks, config saves)
are materialised as explicit lists of events so that they can be
reasoned about.
-/

namespace Clewdr

/-! ### Shared error taxonomy

`ClewdrError` variants relevant to the claims (`error.rs` is summarised by
the spec's error taxonomy; the variants below carry exactly the payloads
the embedded control flow inspects). -/

/-- Cookie return reasons, as in the spec's error taxonomy carried with
`Return` messages (the defining `config/reason.rs` module; the sync task
only constructs `TooManyRequest` and forwards stored reasons opaquely). -/
inductive Reason where
  | normalPristine
  | tooManyRequest (ts : Int)
  | invalidAuth
  | forbidden
  | banned
  | other (msg : String)
deriving DecidableEq, Repr

/-- Error variants of `ClewdrError` that the retry loops and the 1M-probe
logic pattern-match on.  `jsonError` stands for any serde parse failure,
`wreqError` for transport errors, `unexpectedNone` for missing-value
errors. -/
inductive ClewdrErr where
  | invalidCookie (reason : Reason)
  | claudeHttp (code : Nat) (message : String)
  | geminiHttp (code : Nat)
  | emptyChoices
  | jsonError
  | wreqError
  | unexpectedNone
  | tooManyRetries
deriving DecidableEq, Repr

/-! ### C9 — `ClaudeCodeState::merge_anthropic_beta_header` -/

/-- ASCII lowercasing over a character list, mirroring Rust
`str::to_ascii_lowercase` (Lean's `Char.toLower` likewise only maps the
ASCII range A-Z).  Header and model strings are handled as their
character lists so that every operation computes by structural
recursion. -/
def asciiLower (s : List Char) : List Char := s.map Char.toLower

/-- Rust `str::trim`: strip leading and trailing whitespace. -/
def trimChars (s : List Char) : List Char :=
  ((s.dropWhile Char.isWhitespace).reverse.dropWhile Char.isWhitespace).reverse

/-- Rust `str::split(',')`: split at every comma, keeping empty pieces
(an empty input yields one empty piece). -/
def splitOnComma : List Char → List (List Char)
  | [] => [[]]
  | c :: cs =>
    if c = ',' then [] :: splitOnComma cs
    else
      match splitOnComma cs with
      | [] => [[c]]
      | t :: ts => (c :: t) :: ts

/-- `CLAUDE_BETA_BASE` constant from `claude_code_state/chat.rs`. -/
def CLAUDE_BETA_BASE : List Char := "oauth-2025-04-20".toList

/-- `CLAUDE_BETA_CONTEXT_1M_TOKEN` constant from
`claude_code_state/chat.rs`. -/
def CLAUDE_BETA_CONTEXT_1M_TOKEN : List Char := "context-1m-2025-08-07".toList

/-- One step of the `push` closure inside
`ClaudeCodeState::merge_anthropic_beta_header`: `acc.1` is the `seen`
hash set (kept as the insertion-ordered list of lowercased keys, of
which only membership is used) and `acc.2` is the `merged` vector. -/
def pushToken (use1m : Bool) (acc : List (List Char) × List (List Char))
    (token : List Char) : List (List Char) × List (List Char) :=
  let trimmed := trimChars token
  if trimmed = [] then acc
  else
    let key := asciiLower trimmed
    if use1m = false ∧ key = CLAUDE_BETA_CONTEXT_1M_TOKEN then acc
    else if key ∈ acc.1 then acc
    else (acc.1 ++ [key], acc.2 ++ [trimmed])

/-- `ClaudeCodeState::merge_anthropic_beta_header`, returning the merged
token list; the Rust function returns `merged.join(",")`
(`mergeAnthropicBetaHeader` below). -/
def mergeAnthropicBetaTokens (extra : Option (List Char)) (use1m : Bool) :
    List (List Char) :=
  let acc0 : List (List Char) × List (List Char) := ([], [])
  let acc1 := pushToken use1m acc0 CLAUDE_BETA_BASE
  let acc2 := if use1m then pushToken use1m acc1 CLAUDE_BETA_CONTEXT_1M_TOKEN else acc1
  let acc3 :=
    match extra with
    | some e => (splitOnComma e).foldl (pushToken use1m) acc2
    | none => acc2
  acc3.2

/-- The comma-joined header actually sent. -/
def mergeAnthropicBetaHeader (extra : Option (List Char)) (use1m : Bool) : List Char :=
  List.intercalate [','] (mergeAnthropicBetaTokens extra use1m)

/-- Invariant of the `merge_anthropic_beta_header` accumulator: `seen`
is exactly the lowercased image of `merged`, the lowercased merged
tokens are pairwise distinct, and (when the 1M token is filtered out)
no merged token lowercases to it. -/
def BetaAcc (use1m : Bool) (acc : List (List Char) × List (List Char)) : Prop :=
  acc.1 = acc.2.map asciiLower ∧
  (acc.2.map asciiLower).Nodup ∧
  (use1m = false → ∀ t ∈ acc.2, asciiLower t ≠ CLAUDE_BETA_CONTEXT_1M_TOKEN)

instance (use1m : Bool) (acc : List (List Char) × List (List Char)) :
    Decidable (BetaAcc use1m acc) := by
  unfold BetaAcc
  infer_instance

/-! ### C10 — `VertexActor::insert_new` and the `Submit` handler -/

/-- The service-account key document (`yup_oauth2::ServiceAccountKey`);
only the fields the vertex actor reads are listed, the rest of the key
material is carried opaquely in `private_key`. -/
structure ServiceAccountKey where
  client_email : String
  project_id : Option String
  private_key : String
deriving DecidableEq, Repr

/-- `VertexCredential` from `services/vertex_actor.rs`; `Uuid` is
modelled as `Nat`. -/
structure VertexCredential where
  id : Nat
  credential : ServiceAccountKey
  count_403 : Nat
deriving DecidableEq, Repr

/-- `VertexActor::insert_new`.  The fresh `Uuid::new_v4()` is passed in
as `freshId`.  Returns the optional new entry and the updated state. -/
def insert_new (state : List VertexCredential) (freshId : Nat)
    (credential : ServiceAccountKey) : Option VertexCredential × List VertexCredential :=
  if state.any (fun entry => entry.credential.client_email == credential.client_email) then
    (none, state)
  else
    let entry : VertexCredential := ⟨freshId, credential, 0⟩
    (some entry, state ++ [entry])

/-- Observable effects of `VertexActor::handle` on a `Submit` message:
the resulting pool state, whether `Self::save` ran (config RCU + save
task), and whether a `persist_vertex_upsert` task was spawned. -/
structure SubmitEffects where
  state : List VertexCredential
  saved : Bool
  persistSpawned : Bool
deriving DecidableEq, Repr

/-- `VertexActor::handle` on `VertexActorMessage::Submit`. -/
def handleSubmit (storageEnabled : Bool) (state : List VertexCredential)
    (freshId : Nat) (cred : ServiceAccountKey) : SubmitEffects :=
  match insert_new state freshId cred with
  | (some _, st) => ⟨st, true, storageEnabled⟩
  | (none, st) => ⟨st, false, false⟩

/-! ### C5 — the `FileLayer` implementation of `StorageLayer` -/

/-- The operations of the `StorageLayer` trait (`persistence/mod.rs`). -/
inductive StorageOp where
  | spawnBootstrap
  | persistConfig
  | persistCookies
  | persistKeys
  | persistCookieUpsert
  | deleteCookieRow
  | persistWastedUpsert
  | persistKeyUpsert
  | deleteKeyRow
  | importFromFile
  | exportToFile
deriving DecidableEq, Repr

/-- Result of a `FileLayer` operation (payload values of the `Ok` cases
are irrelevant to the claim and elided). -/
inductive StorageResult where
  | ok
  | pathNotFound (msg : String)
deriving DecidableEq, Repr

/-- The `impl StorageLayer for FileLayer` bodies: every method returns
`Ok` immediately except `import_from_file` and `export_to_file`, which
return `Err(ClewdrError::PathNotFound)`. -/
def fileLayerRun : StorageOp → StorageResult
  | .importFromFile => .pathNotFound "DB feature not enabled"
  | .exportToFile => .pathNotFound "DB feature not enabled"
  | _ => .ok

/-- `FileLayer::is_enabled`. -/
def fileLayerIsEnabled : Bool := false

/-! ### C8 — the cookie reconciliation tick in `services/sync.rs` -/

/-- `TokenInfo` paired with a cookie (`config/token.rs`); carried
opaquely by the sync task. -/
structure TokenInfo where
  access_token : String
  refresh_token : String
  org_uuid : String
  expires_at : Int
  expires_in : Int
deriving DecidableEq, Repr

/-- `CookieStatus` as constructed and forwarded by `services/sync.rs`
(fields `cookie`, `reset_time`, `token`). -/
structure CookieStatus where
  cookie : String
  reset_time : Option Int
  token : Option TokenInfo
deriving DecidableEq, Repr

/-- A retired cookie row (`UselessCookie`). -/
structure UselessCookie where
  cookie : String
  reason : Reason
deriving DecidableEq, Repr

/-- Messages the sync tick can send to the cookie actor.  `deleteCookie`
exists on the handle but the claim is that the tick never sends it. -/
inductive CookieActorMsg where
  | submit (c : CookieStatus)
  | returnCookie (c : CookieStatus) (r : Option Reason)
  | deleteCookie (cookie : String)
deriving DecidableEq, Repr

/-- One body of the 45s cookie sync loop in `services/sync.rs`: given the
DB snapshot `(dbValid, dbExhausted, dbInvalid)` and the actor's current
cookie keys per bucket, the list of messages sent, in program order.
`now` is `chrono::Utc::now().timestamp()`. -/
def cookieSyncTick (now : Int)
    (dbValid dbExhausted : List CookieStatus) (dbInvalid : List UselessCookie)
    (curValid curExh curInv : List String) : List CookieActorMsg :=
  ((dbValid.filter (fun v =>
      !(curValid.contains v.cookie || curExh.contains v.cookie
        || curInv.contains v.cookie))).map CookieActorMsg.submit)
  ++ ((dbExhausted.filter (fun e => !curExh.contains e.cookie)).map (fun e =>
      let ts := e.reset_time.getD (now + 3600)
      CookieActorMsg.returnCookie { e with reset_time := some ts }
        (some (.tooManyRequest ts))))
  ++ ((dbInvalid.filter (fun u => !curInv.contains u.cookie)).map (fun u =>
      CookieActorMsg.returnCookie ⟨u.cookie, none, none⟩ (some u.reason)))

/-! ### C4 — the orchestrator retry loops -/

/-- Outcome of one iteration body of `ClaudeCodeState::try_chat`
(token maintenance + `send_chat`). -/
inductive ClaudeAttempt where
  | ok
  | err (e : ClewdrErr)
deriving DecidableEq, Repr

/-- Result of a whole retry loop. -/
inductive TryChatResult where
  | ok
  | err (e : ClewdrErr)
deriving DecidableEq, Repr

/-- `ClaudeCodeState::try_chat`: loop `for i in 0..max_retries + 1`;
an `InvalidCookie` error returns the cookie and continues, any other
error is returned immediately.  `outcomes i` is the result of iteration
`i`'s body; the pair returned is `(result, iterations executed)`. -/
def claudeTryChatAux (outcomes : Nat → ClaudeAttempt) : Nat → Nat → TryChatResult × Nat
  | _, 0 => (.err .tooManyRetries, 0)
  | i, fuel + 1 =>
    match outcomes i with
    | .ok => (.ok, 1)
    | .err e =>
      match e with
      | .invalidCookie _ =>
        let r := claudeTryChatAux outcomes (i + 1) fuel
        (r.1, r.2 + 1)
      | _ => (.err e, 1)

/-- Entry point of the Claude retry loop. -/
def claudeTryChat (maxRetries : Nat) (outcomes : Nat → ClaudeAttempt) :
    TryChatResult × Nat :=
  claudeTryChatAux outcomes 0 (maxRetries + 1)

/-- Shape of a Gemini non-stream response body as inspected by
`check_empty_choices`: whether it parses, whether `candidates` is empty,
and whether the first candidate's finish reason is `OTHER`. -/
structure GeminiBody where
  parseOk : Bool
  candidatesEmpty : Bool
  firstFinishOther : Bool
deriving DecidableEq, Repr

/-- Outcome of `GeminiState::send_chat` for one attempt. -/
inductive GeminiSendOutcome where
  | ok (body : GeminiBody)
  | err (e : ClewdrErr)
deriving DecidableEq, Repr

/-- `GeminiState::check_empty_choices` (native format): streams and CLI
mode are forwarded unchecked; otherwise a parse failure, an empty
`candidates` array, or `finishReason == OTHER` is an error. -/
def checkEmptyChoices (stream cliMode : Bool) (b : GeminiBody) : Option ClewdrErr :=
  if stream || cliMode then none
  else if !b.parseOk then some .jsonError
  else if b.candidatesEmpty then some .emptyChoices
  else if b.firstFinishOther then some .emptyChoices
  else none

/-- `GeminiState::try_chat`: loop `for i in 0..max_retries + 1`; a
`GeminiHttpError` from `send_chat` stores the error and continues, any
other `send_chat` error returns immediately; an `Ok` response is passed
through `check_empty_choices`, and ANY error from that check stores the
error and continues.  After the loop, the stored error (or
`TooManyRetries`) is returned. -/
def geminiTryChatAux (stream cliMode : Bool) (outcomes : Nat → GeminiSendOutcome) :
    Nat → Nat → Option ClewdrErr → TryChatResult × Nat
  | _, 0, lastErr =>
    match lastErr with
    | some e => (.err e, 0)
    | none => (.err .tooManyRetries, 0)
  | i, fuel + 1, _lastErr =>
    match outcomes i with
    | .ok b =>
      match checkEmptyChoices stream cliMode b with
      | none => (.ok, 1)
      | some e =>
        let r := geminiTryChatAux stream cliMode outcomes (i + 1) fuel (some e)
        (r.1, r.2 + 1)
    | .err e =>
      match e with
      | .geminiHttp code =>
        let r := geminiTryChatAux stream cliMode outcomes (i + 1) fuel
          (some (.geminiHttp code))
        (r.1, r.2 + 1)
      | _ => (.err e, 1)

/-- Entry point of the Gemini retry loop. -/
def geminiTryChat (maxRetries : Nat) (stream cliMode : Bool)
    (outcomes : Nat → GeminiSendOutcome) : TryChatResult × Nat :=
  geminiTryChatAux stream cliMode outcomes 0 (maxRetries + 1) none

/-! ### C7 — CLI bearer-token refresh in `GeminiState::send_chat` -/

/-- `CliOAuthMeta` from `config/cli_token.rs`. -/
structure CliOAuthMeta where
  client_id : Option String
  client_secret : Option String
  refresh_token : Option String
  token_uri : Option String
  scopes : Option (List String)
  project_id : Option String
deriving DecidableEq, Repr

/-- `CliTokenStatus` from `config/cli_token.rs`; `expiry` is a Unix
timestamp in seconds. -/
structure CliTokenStatus where
  token : String
  count_403 : Nat
  expiry : Option Int
  meta : Option CliOAuthMeta
deriving DecidableEq, Repr

/-- The JSON body returned by the token endpoint, as far as the code
inspects it (`access_token` string, `expires_in` integer). -/
structure RefreshResponse where
  access_token : Option String
  expires_in : Option Int
deriving DecidableEq, Repr

/-- Observable outcome of the token-preparation step of the CLI branch
of `GeminiState::send_chat`: the bearer value used for the dispatch, the
token record afterwards, the refresh POST that was sent (endpoint and
form fields), and whether `cli_handle.return_token` was called. -/
structure CliTokenPrep where
  resultToken : String
  tokenAfter : CliTokenStatus
  postSent : Option (String × List (String × String))
  returnedToActor : Bool
deriving DecidableEq, Repr

/-- The saved-CLI-token branch of `GeminiState::send_chat`
(`gemini_state/mod.rs`): if the token has an expiry and
`now ≥ expiry - 300` and all four refresh-metadata fields are present,
POST `grant_type=refresh_token` to the token endpoint; a transport/parse
failure of that POST propagates (`?`); if the parsed body has an
`access_token`, overwrite the token, overwrite the expiry when
`expires_in` is present (the second `Utc::now()` call is `now2`), and
return the record to the actor.  In every other case the stored token is
used as-is. -/
def cliPrepareToken (now now2 : Int) (t : CliTokenStatus)
    (resp : Option RefreshResponse) : Except ClewdrErr CliTokenPrep :=
  let asIs : CliTokenPrep := ⟨t.token, t, none, false⟩
  match t.expiry with
  | none => .ok asIs
  | some exp =>
    if exp - 300 ≤ now then
      match t.meta with
      | none => .ok asIs
      | some m =>
        match m.client_id, m.client_secret, m.refresh_token, m.token_uri with
        | some cid, some cs, some rt, some uri =>
          let form := [("grant_type", "refresh_token"), ("client_id", cid),
            ("client_secret", cs), ("refresh_token", rt)]
          match resp with
          | none => .error .wreqError
          | some v =>
            match v.access_token with
            | some acc =>
              let t1 := { t with token := acc }
              let t2 :=
                match v.expires_in with
                | some ei => { t1 with expiry := some (now2 + ei) }
                | none => t1
              .ok ⟨acc, t2, some (uri, form), true⟩
            | none => .ok ⟨t.token, t, some (uri, form), false⟩
        | _, _, _, _ => .ok asIs
    else .ok asIs

/-! ### C2 — the 1M-context probe in `ClaudeCodeState::send_chat` -/

/-- The two probe lanes. -/
inductive Claude1mLane where
  | sonnet
  | opus
deriving DecidableEq, Repr

/-- `ClaudeCodeState::is_sonnet_1m_probe_model`. -/
def is_sonnet_1m_probe_model (model : List Char) : Bool :=
  "claude-sonnet-4".toList.isPrefixOf model

/-- `ClaudeCodeState::is_opus_1m_probe_model`. -/
def is_opus_1m_probe_model (model : List Char) : Bool :=
  "claude-opus-4-6".toList.isPrefixOf model

/-- `ClaudeCodeState::claude_1m_lane`. -/
def claude_1m_lane (model : List Char) : Option Claude1mLane :=
  let m := asciiLower model
  if is_sonnet_1m_probe_model m then some .sonnet
  else if is_opus_1m_probe_model m then some .opus
  else none

/-- `ClaudeCodeState::configured_1m_mode`: the global config fields
`enable_1m_sonnet` / `enable_1m_opus` selected by lane. -/
def configured_1m_mode (enable1mSonnet enable1mOpus : Option Bool) :
    Claude1mLane → Option Bool
  | .sonnet => enable1mSonnet
  | .opus => enable1mOpus

/-- The `strip_suffix("-1M")` preamble of `send_chat`. -/
def strip1mSuffix (model : List Char) : List Char × Bool :=
  if "-1M".toList.isSuffixOf model then (model.take (model.length - 3), true)
  else (model, false)

/-- The `attempts` vector computed in `send_chat` from the configured
lane mode, whether a lane exists, and the `-1M` request suffix. -/
def probeAttempts (laneMode : Option Bool) (laneSome requested1m : Bool) : List Bool :=
  match laneMode with
  | some false => [false]
  | _ => if laneSome || requested1m then [true, false] else [false]

/-- Substring test used to model Rust's `str::contains`. -/
def containsSubstr (needle hay : List Char) : Bool :=
  hay.tails.any (fun t => needle.isPrefixOf t)

/-- `ClaudeCodeState::is_context_1m_forbidden`: a `ClaudeHttpError` with
code 400/403/429 whose lowercased message contains one of the three
denial phrases. -/
def is_context_1m_forbidden : ClewdrErr → Bool
  | .claudeHttp code message =>
    (code == 400 || code == 403 || code == 429) &&
      (let m := asciiLower message.toList
       containsSubstr "the long context beta is not yet available for this subscription".toList m
        || containsSubstr
            "this authentication style is incompatible with the long context beta header".toList m
        || containsSubstr "extra usage is required for long context requests".toList m)
  | _ => false

/-- Observable outcome of one `send_chat` probe run: the final result,
the `use_context_1m` flag of every attempt actually executed, and the
sequence of `persist_1m_mode` config saves performed (lane, new value). -/
structure ProbeRun where
  result : TryChatResult
  used : List Bool
  persists : List (Claude1mLane × Option Bool)
deriving DecidableEq, Repr

/-- `ClaudeCodeState::persist_1m_mode`: a config RCU + save happens only
when the lane's current value differs from the new one. -/
def persist1mActions (current value : Option Bool) (lane : Claude1mLane) :
    List (Claude1mLane × Option Bool) :=
  if current = value then [] else [(lane, value)]

/-- The attempt loop of `ClaudeCodeState::send_chat`.  `laneCurrent` is
the current config value of the probed lane (threaded because
`persist_1m_mode` compares against it); `outcomes idx` is the result of
`execute_claude_request` for attempt `idx`. -/
def claudeSendChatLoop (lane : Option Claude1mLane) (outcomes : Nat → ClaudeAttempt) :
    Option Bool → Nat → List Bool → ProbeRun
  | _, _, [] => ⟨.err .tooManyRetries, [], []⟩
  | laneCurrent, idx, u :: rest =>
    match outcomes idx with
    | .ok => ⟨.ok, [u], []⟩
    | .err e =>
      let isLast := rest.isEmpty
      let shouldFallback := u && !isLast && lane.isSome && is_context_1m_forbidden e
      if shouldFallback then
        let pa :=
          match lane with
          | some l => persist1mActions laneCurrent (some false) l
          | none => []
        let newCurrent :=
          match lane with
          | some _ => some false
          | none => laneCurrent
        let r := claudeSendChatLoop lane outcomes newCurrent (idx + 1) rest
        ⟨r.result, u :: r.used, pa ++ r.persists⟩
      else ⟨.err e, [u], []⟩

/-- `ClaudeCodeState::send_chat` for a leased access token:
strip the `-1M` suffix, compute the lane and its configured mode from
the global config (`enable1mSonnet`, `enable1mOpus`), build the attempt
vector and run the attempts. -/
def claudeSendChat (enable1mSonnet enable1mOpus : Option Bool) (model : List Char)
    (outcomes : Nat → ClaudeAttempt) : ProbeRun :=
  let sr := strip1mSuffix model
  let lane := claude_1m_lane sr.1
  let laneMode := lane.bind (configured_1m_mode enable1mSonnet enable1mOpus)
  let attempts := probeAttempts laneMode lane.isSome sr.2
  claudeSendChatLoop lane outcomes laneMode 0 attempts

/-! ### C6 — `ClaudeCodeState::update_cookie_boundaries_if_due` -/

/-- `UsageBreakdown` (per-window token counters); the reset writes
`UsageBreakdown::default()`. -/
structure UsageBreakdown where
  input_tokens : Nat
  output_tokens : Nat
deriving DecidableEq, Repr, Inhabited

/-- The three per-window fields of a cookie
(`*_has_reset`, `*_resets_at`, `*_usage`). -/
structure WindowState where
  has_reset : Option Bool
  resets_at : Option Int
  usage : UsageBreakdown
deriving DecidableEq, Repr

/-- The `due` closure: `ts.map(|t| now >= t).unwrap_or(false)`. -/
def isDue (now : Int) : Option Int → Bool
  | some t => decide (t ≤ now)
  | none => false

/-- The usage-window fields of `CookieStatus` touched by
`update_cookie_boundaries_if_due` (the defining `config/cookie.rs`
module is outside the sources; the field set is exactly the one the
function reads and writes). -/
structure CookieUsageState where
  session : WindowState
  weekly : WindowState
  weekly_sonnet : WindowState
  weekly_opus : WindowState
  resets_last_checked_at : Option Int
deriving DecidableEq, Repr

/-- The four optional reset boundaries parsed from the usage endpoint by
`fetch_usage_resets` (`five_hour`, `seven_day`, `seven_day_opus`,
`seven_day_sonnet`). -/
structure UsageResets where
  five_hour : Option Int
  seven_day : Option Int
  seven_day_opus : Option Int
  seven_day_sonnet : Option Int
deriving DecidableEq, Repr

/-- The per-window effect of the success branch of
`update_cookie_boundaries_if_due` (the source repeats this block once
per window; the blocks touch disjoint fields, so they are factored):
unknown tracking is decided from the fetched value, a due window's usage
is reset, and a tracked window's boundary is overwritten (or tracking is
switched off when the server reports no boundary). -/
def updateWindowSuccess (w : WindowState) (wasDue : Bool) (val : Option Int) :
    WindowState :=
  let hr1 := if w.has_reset = none then some val.isSome else w.has_reset
  let usage1 := if wasDue then default else w.usage
  if hr1 = some true then
    match val with
    | some ts => ⟨hr1, some ts, usage1⟩
    | none => ⟨some false, none, usage1⟩
  else ⟨hr1, w.resets_at, usage1⟩

/-- The per-window effect of the failure branch (network/parse failure):
tracked due windows get a fallback boundary `now + window` and a usage
reset, everything else is untouched. -/
def updateWindowFailure (now window : Int) (w : WindowState)
    (wasDue wasTracked : Bool) : WindowState :=
  if wasDue && wasTracked then ⟨w.has_reset, some (now + window), default⟩ else w

/-- `ClaudeCodeState::update_cookie_boundaries_if_due`.  The call to
`fetch_usage_resets` is the oracle `fetch` (`none` = network/parse
failure); it refreshes the cookie's OAuth token but leaves the
usage-window fields unchanged, so those fields are threaded directly. -/
def update_cookie_boundaries_if_due (now : Int) (fetch : Option UsageResets)
    (c : CookieUsageState) : CookieUsageState :=
  let sessionTracked := c.session.has_reset == some true
  let weeklyTracked := c.weekly.has_reset == some true
  let sonnetTracked := c.weekly_sonnet.has_reset == some true
  let opusTracked := c.weekly_opus.has_reset == some true
  let sessionDue := sessionTracked && isDue now c.session.resets_at
  let weeklyDue := weeklyTracked && isDue now c.weekly.resets_at
  let sonnetDue := sonnetTracked && isDue now c.weekly_sonnet.resets_at
  let opusDue := opusTracked && isDue now c.weekly_opus.resets_at
  let needProbeUnknown := (c.session.has_reset == (none : Option Bool))
    || (c.weekly.has_reset == (none : Option Bool))
    || (c.weekly_sonnet.has_reset == (none : Option Bool))
    || (c.weekly_opus.has_reset == (none : Option Bool))
  let anyDue := sessionDue || weeklyDue || sonnetDue || opusDue
  if !(needProbeUnknown || anyDue) then c
  else
    match fetch with
    | some r =>
      { session := updateWindowSuccess c.session sessionDue r.five_hour
        weekly := updateWindowSuccess c.weekly weeklyDue r.seven_day
        weekly_sonnet := updateWindowSuccess c.weekly_sonnet sonnetDue r.seven_day_sonnet
        weekly_opus := updateWindowSuccess c.weekly_opus opusDue r.seven_day_opus
        resets_last_checked_at := some now }
    | none =>
      { session := updateWindowFailure now (5 * 60 * 60) c.session sessionDue sessionTracked
        weekly := updateWindowFailure now (7 * 24 * 60 * 60) c.weekly weeklyDue weeklyTracked
        weekly_sonnet := updateWindowFailure now (7 * 24 * 60 * 60) c.weekly_sonnet
          sonnetDue sonnetTracked
        weekly_opus := updateWindowFailure now (7 * 24 * 60 * 60) c.weekly_opus
          opusDue opusTracked
        resets_last_checked_at := some now }

/-- The claimed invariant, literally as stated by the spec:
`has_reset = true` implies `resets_at` is `Some`, and
`has_reset = false` implies `resets_at` is `None` (nothing is said about
the unknown state). -/
def WeakResetInv (w : WindowState) : Prop :=
  (w.has_reset = some true → w.resets_at.isSome) ∧
  (w.has_reset = some false → w.resets_at = none)

/-- The strengthened invariant the code actually preserves:
`resets_at` is `Some` exactly when `has_reset = Some true`. -/
def ResetInv (w : WindowState) : Prop :=
  w.resets_at.isSome ↔ w.has_reset = some true

instance (w : WindowState) : Decidable (WeakResetInv w) := by
  unfold WeakResetInv
  infer_instance

instance (w : WindowState) : Decidable (ResetInv w) := by
  unfold ResetInv
  infer_instance

/-! ### C3 — `stream_remove_marker` and the anti-truncation loop -/

/-- The bytes of the `[done]` sentinel (`DONE_MARKER` in
`api/gemini_cli.rs`). -/
def DONE_MARKER : List Nat := [91, 100, 111, 110, 101, 93]

/-- The scan loop of `stream_remove_marker`: `pre` holds `data[..i]`,
`rest` holds `data[i..]`.  While `i + marker.len() <= data.len()`, a
marker at `i` is drained (and `i` stays put), otherwise `i += 1`.  The
`fuel` argument makes the recursion structural; it starts at
`rest.length`, which bounds the iterations because every iteration
shortens `rest`, and the fuel-exhausted case coincides with the loop
exit (`rest` is then empty). -/
def streamRemoveMarkerAux : Nat → List Nat → List Nat → Bool → List Nat × Bool
  | 0, pre, rest, seen => (pre ++ rest, seen)
  | fuel + 1, pre, rest, seen =>
    if DONE_MARKER.length ≤ rest.length then
      if rest.take DONE_MARKER.length = DONE_MARKER then
        streamRemoveMarkerAux fuel pre (rest.drop DONE_MARKER.length) true
      else
        match rest with
        | [] => (pre, seen)
        | r :: rs => streamRemoveMarkerAux fuel (pre ++ [r]) rs seen
    else (pre ++ rest, seen)

/-- `stream_remove_marker` from `api/gemini_cli.rs`: returns the chunk
with markers spliced out by a single left-to-right scan, and whether any
marker was seen. -/
def streamRemoveMarker (chunk : List Nat) : List Nat × Bool :=
  streamRemoveMarkerAux chunk.length [] chunk false

/-- One SSE attempt of `stream_with_anti_truncation`: every chunk is
passed through `stream_remove_marker` and forwarded; `finished` becomes
true as soon as any chunk contained the marker (the stream is still
drained to its end). -/
def processAttempt (chunks : List (List Nat)) : List (List Nat) × Bool :=
  chunks.foldl
    (fun acc ch =>
      let r := streamRemoveMarker ch
      (acc.1 ++ [r.1], acc.2 || r.2))
    ([], false)

/-- `MAX_ATTEMPTS` from `api/gemini_cli.rs`. -/
def MAX_ATTEMPTS : Nat := 3

/-- The `while attempt < MAX_ATTEMPTS && !finished` loop of
`stream_with_anti_truncation`, restricted to upstreams that answer every
attempt with an SSE stream (`upstream i` is the chunk list of attempt
`i`).  `fuel` is `MAX_ATTEMPTS - attempt`.  Returns the emitted chunks
and the number of attempts performed. -/
def antiTruncGo (upstream : Nat → List (List Nat)) : Nat → Nat → List (List Nat) × Nat
  | attempt, 0 => ([], attempt)
  | attempt, fuel + 1 =>
    let r := processAttempt (upstream attempt)
    if r.2 then (r.1, attempt + 1)
    else
      let rest := antiTruncGo upstream (attempt + 1) fuel
      (r.1 ++ rest.1, rest.2)

/-- The anti-truncation loop started at attempt 0. -/
def antiTruncation (upstream : Nat → List (List Nat)) : List (List Nat) × Nat :=
  antiTruncGo upstream 0 MAX_ATTEMPTS

/-! ### C1 — `StopSequenceMatcher` (`utils/stop_sequence.rs`)

Text is modelled at the character level.  Rust measures
`max_match_length` and the emission split in bytes, but every active
buffer is a suffix of `buffered_chars`, so the byte-level split always
falls on a character boundary and coincides with the character-level
split used here. -/

/-- A sentinel list, each sentinel a character list. -/
abbrev Sentinels := List (List Char)

/-- Denotation of the trie built by `StopSequenceMatcher::new`: the trie
contains a node for path `p` exactly when `p` is a prefix of some
sentinel; `children.get(&c)` at node `p` succeeds exactly when
`p ++ [c]` is again such a prefix; `is_end`/`sequence` hold at `p`
exactly when `p` itself is a sentinel. -/
def isNode (S : Sentinels) (p : List Char) : Prop := ∃ s ∈ S, p <+: s

instance (S : Sentinels) (p : List Char) : Decidable (isNode S p) := by
  unfold isNode
  infer_instance

/-- `StopSequenceState`: the pending characters and the active trie
walks.  An active walk is identified by its `buffer` (the characters
consumed since it started), which by construction spells the path of
its current trie node. -/
structure MatcherState where
  buffered : List Char
  active : List (List Char)
deriving DecidableEq, Repr

/-- The freshly constructed matcher state. -/
def initState : MatcherState := ⟨[], []⟩

/-- The `for match_state in &state.active_matches` loop of
`process_char`: extend every walk by `c` in order, breaking with the
matched sentinel at the first walk whose extension is an end node.
Returns the surviving extended walks, `max_match_length`, and the
optional match. -/
def scanActive (S : Sentinels) (c : Char) :
    List (List Char) → List (List Char) × Nat × Option (List Char)
  | [] => ([], 0, none)
  | b :: rest =>
    if isNode S (b ++ [c]) then
      if (b ++ [c]) ∈ S then ([], 0, some (b ++ [c]))
      else
        let r := scanActive S c rest
        ((b ++ [c]) :: r.1, max (b ++ [c]).length r.2.1, r.2.2)
    else scanActive S c rest

/-- `StopSequenceMatcher::process_char`: push a fresh root walk, buffer
`c`, run the scan; on a match clear all state and report the sentinel;
otherwise release the characters that can no longer belong to any
match. -/
def processChar (S : Sentinels) (st : MatcherState) (c : Char) :
    MatcherState × Option (List Char) × Option (List Char) :=
  let active1 := st.active ++ [[]]
  let buffered1 := st.buffered ++ [c]
  let r := scanActive S c active1
  match r.2.2 with
  | some seq => (⟨[], []⟩, none, some seq)
  | none =>
    if r.2.1 < buffered1.length then
      let nOut := buffered1.length - r.2.1
      (⟨buffered1.drop nOut, r.1⟩, some (buffered1.take nOut), none)
    else (⟨buffered1, r.1⟩, none, none)

/-- `StopSequenceMatcher::process`: feed a chunk character by character,
accumulating released text, stopping at the first match. -/
def process (S : Sentinels) :
    MatcherState → List Char → MatcherState × List Char × Option (List Char)
  | st, [] => (st, [], none)
  | st, ch :: cs =>
    let r := processChar S st ch
    let outl := r.2.1.getD []
    match r.2.2 with
    | some seq => (r.1, outl, some seq)
    | none =>
      let rr := process S r.1 cs
      (rr.1, outl ++ rr.2.1, rr.2.2)

/-- Feeding a sequence of chunks through one matcher, as the streaming
middleware does: chunks are processed in order and the stream is closed
at the first match. -/
def feed (S : Sentinels) :
    MatcherState → List (List Char) → MatcherState × List Char × Option (List Char)
  | st, [] => (st, [], none)
  | st, ch :: chs =>
    let r := process S st ch
    match r.2.2 with
    | some seq => (r.1, r.2.1, some seq)
    | none =>
      let rr := feed S r.1 chs
      (rr.1, r.2.1 ++ rr.2.1, rr.2.2)

/-- Run invariant of the matcher between characters while no match has
been reported: the released text plus the buffer is exactly the
consumed input; every active walk is a nonempty suffix of the buffer
and a live trie node; every nonempty suffix of the consumed input that
is a live trie node is an active walk; and no nonempty sentinel occurs
as a substring of the consumed input. -/
structure MatcherInv (S : Sentinels) (st : MatcherState) (consumed emitted : List Char) :
    Prop where
  decomp : emitted ++ st.buffered = consumed
  activeSound : ∀ b ∈ st.active, b ≠ [] ∧ b <:+ st.buffered ∧ isNode S b
  activeComplete : ∀ u, u ≠ [] → u <:+ consumed → isNode S u → u ∈ st.active
  noSentinel : ∀ s ∈ S, s ≠ [] → ¬ s <:+: consumed

/-! ## Theorems -/

/-! ### C5 -/

/-- C5 counterexample: in file (non-DB) storage mode, `import_from_file`
does not read the config file and succeed — it fails with
`PathNotFound("DB feature not enabled")` (and `export_to_file`
likewise), refuting the claim that these two operations read/write the
on-disk config file and in particular do not fail. -/
theorem fileLayer_import_export_fail :
    fileLayerRun .importFromFile = .pathNotFound "DB feature not enabled" ∧
    fileLayerRun .exportToFile = .pathNotFound "DB feature not enabled" :=
  ⟨rfl, rfl⟩

/-- C5 (amended): in file (non-DB) storage mode, every storage-layer
operation succeeds trivially as a no-op, except `import_from_file` and
`export_to_file`, which fail with `PathNotFound` (the file-mode layer
does not implement the import/export bridge). -/
theorem fileLayer_spec (op : StorageOp) :
    (op ≠ .importFromFile → op ≠ .exportToFile → fileLayerRun op = .ok) ∧
    fileLayerRun .importFromFile = .pathNotFound "DB feature not enabled" ∧
    fileLayerRun .exportToFile = .pathNotFound "DB feature not enabled" := by
  refine ⟨?_, rfl, rfl⟩
  intro h1 h2
  cases op <;> first
    | rfl
    | exact absurd rfl h1
    | exact absurd rfl h2

/-- Witness for `fileLayer_spec` at a concrete operation. -/
theorem fileLayer_spec_witness : fileLayerRun .persistCookieUpsert = .ok :=
  (fileLayer_spec .persistCookieUpsert).1 (by decide) (by decide)

/-! ### C10 -/

/-- C10: submitting a service-account key whose `client_email` equals
that of an existing pool entry leaves the actor state unchanged, with no
save and no spawned persistence task; a non-duplicate submit appends
exactly one entry carrying the freshly generated id and
`count_403 = 0`, saves, and spawns persistence exactly when storage is
enabled. -/
theorem vertex_submit_frame (storageEnabled : Bool) (state : List VertexCredential)
    (freshId : Nat) (cred : ServiceAccountKey) :
    handleSubmit storageEnabled state freshId cred =
      (if state.any (fun e => e.credential.client_email == cred.client_email) then
        ⟨state, false, false⟩
      else ⟨state ++ [⟨freshId, cred, 0⟩], true, storageEnabled⟩) := by
  by_cases h : state.any (fun e => e.credential.client_email == cred.client_email) = true
  · simp [handleSubmit, insert_new, h]
  · simp only [Bool.not_eq_true] at h
    simp [handleSubmit, insert_new, h]

/-- Witness for `vertex_submit_frame` at concrete inputs: a duplicate
submit is a complete no-op. -/
theorem vertex_submit_frame_witness :
    handleSubmit true [⟨7, ⟨"a@b", none, "k"⟩, 3⟩] 9 ⟨"a@b", some "p", "k2"⟩ =
      ⟨[⟨7, ⟨"a@b", none, "k"⟩, 3⟩], false, false⟩ := by
  have h := vertex_submit_frame true [⟨7, ⟨"a@b", none, "k"⟩, 3⟩] 9 ⟨"a@b", some "p", "k2"⟩
  simpa using h

/-! ### C8 -/

/-- C8: every cookie reconciliation tick is conservative: it submits
each DB valid cookie missing from all three actor buckets, reclassifies
via `Return(TooManyRequest ts)` each DB-exhausted cookie not currently
exhausted in the actor (with the DB's reset timestamp, or `now + 3600`
when the DB has none), reclassifies via `Return(reason)` each
DB-invalid cookie not currently invalid in the actor, and never sends a
delete message. -/
theorem cookie_sync_tick_conservative (now : Int)
    (dbValid dbExhausted : List CookieStatus) (dbInvalid : List UselessCookie)
    (curValid curExh curInv : List String) :
    (∀ m ∈ cookieSyncTick now dbValid dbExhausted dbInvalid curValid curExh curInv,
      ∀ ck, m ≠ .deleteCookie ck) ∧
    (∀ v ∈ dbValid, v.cookie ∉ curValid → v.cookie ∉ curExh → v.cookie ∉ curInv →
      CookieActorMsg.submit v ∈
        cookieSyncTick now dbValid dbExhausted dbInvalid curValid curExh curInv) ∧
    (∀ e ∈ dbExhausted, ∀ ts, e.cookie ∉ curExh → e.reset_time = some ts →
      CookieActorMsg.returnCookie { e with reset_time := some ts }
          (some (.tooManyRequest ts)) ∈
        cookieSyncTick now dbValid dbExhausted dbInvalid curValid curExh curInv) ∧
    (∀ e ∈ dbExhausted, e.cookie ∉ curExh → e.reset_time = none →
      CookieActorMsg.returnCookie { e with reset_time := some (now + 3600) }
          (some (.tooManyRequest (now + 3600))) ∈
        cookieSyncTick now dbValid dbExhausted dbInvalid curValid curExh curInv) ∧
    (∀ u ∈ dbInvalid, u.cookie ∉ curInv →
      CookieActorMsg.returnCookie ⟨u.cookie, none, none⟩ (some u.reason) ∈
        cookieSyncTick now dbValid dbExhausted dbInvalid curValid curExh curInv) := by
  refine ⟨?_, ?_, ?_, ?_, ?_⟩
  · intro m hm ck
    unfold cookieSyncTick at hm
    rcases List.mem_append.1 hm with h | h
    · rcases List.mem_append.1 h with h' | h'
      · obtain ⟨v, _, rfl⟩ := List.mem_map.1 h'
        simp
      · obtain ⟨e, _, rfl⟩ := List.mem_map.1 h'
        simp
    · obtain ⟨u, _, rfl⟩ := List.mem_map.1 h
      simp
  · intro v hv h1 h2 h3
    unfold cookieSyncTick
    refine List.mem_append.2 (Or.inl (List.mem_append.2 (Or.inl ?_)))
    exact List.mem_map.2 ⟨v, List.mem_filter.2 ⟨hv, by simp [h1, h2, h3]⟩, rfl⟩
  · intro e he ts hc ht
    unfold cookieSyncTick
    refine List.mem_append.2 (Or.inl (List.mem_append.2 (Or.inr ?_)))
    exact List.mem_map.2 ⟨e, List.mem_filter.2 ⟨he, by simp [hc]⟩, by simp [ht]⟩
  · intro e he hc ht
    unfold cookieSyncTick
    refine List.mem_append.2 (Or.inl (List.mem_append.2 (Or.inr ?_)))
    exact List.mem_map.2 ⟨e, List.mem_filter.2 ⟨he, by simp [hc]⟩, by simp [ht]⟩
  · intro u hu hc
    unfold cookieSyncTick
    refine List.mem_append.2 (Or.inr ?_)
    exact List.mem_map.2 ⟨u, List.mem_filter.2 ⟨hu, by simp [hc]⟩, rfl⟩

/-- Witness for `cookie_sync_tick_conservative` at a concrete DB/actor
snapshot. -/
theorem cookie_sync_tick_conservative_witness :
    CookieActorMsg.submit ⟨"c1", none, none⟩ ∈
      cookieSyncTick 0 [⟨"c1", none, none⟩] [⟨"c2", some 5, none⟩] [⟨"c3", .banned⟩]
        [] [] [] ∧
    CookieActorMsg.returnCookie ⟨"c2", some 5, none⟩ (some (.tooManyRequest 5)) ∈
      cookieSyncTick 0 [⟨"c1", none, none⟩] [⟨"c2", some 5, none⟩] [⟨"c3", .banned⟩]
        [] [] [] ∧
    CookieActorMsg.returnCookie ⟨"c3", none, none⟩ (some .banned) ∈
      cookieSyncTick 0 [⟨"c1", none, none⟩] [⟨"c2", some 5, none⟩] [⟨"c3", .banned⟩]
        [] [] [] := by
  refine ⟨?_, ?_, ?_⟩
  · exact (cookie_sync_tick_conservative 0 _ _ _ _ _ _).2.1 ⟨"c1", none, none⟩
      (by decide) (by decide) (by decide) (by decide)
  · exact (cookie_sync_tick_conservative 0 _ _ _ _ _ _).2.2.1 ⟨"c2", some 5, none⟩
      (by decide) 5 (by decide) (by decide)
  · exact (cookie_sync_tick_conservative 0 _ _ _ _ _ _).2.2.2.2 ⟨"c3", .banned⟩
      (by decide) (by decide)

/-! ### C4 -/

/-- Attempt-count bound for the Claude retry loop. -/
theorem claudeTryChatAux_le (outcomes : Nat → ClaudeAttempt) :
    ∀ (fuel i : Nat), (claudeTryChatAux outcomes i fuel).2 ≤ fuel := by
  intro fuel
  induction fuel with
  | zero => intro i; simp [claudeTryChatAux]
  | succ n ih =>
    intro i
    unfold claudeTryChatAux
    cases h : outcomes i with
    | ok => simp
    | err e =>
      cases e <;> simp
      exact ih (i + 1)

/-- Attempt-count bound for the Gemini retry loop. -/
theorem geminiTryChatAux_le (stream cliMode : Bool) (outcomes : Nat → GeminiSendOutcome) :
    ∀ (fuel i : Nat) (lerr : Option ClewdrErr),
      (geminiTryChatAux stream cliMode outcomes i fuel lerr).2 ≤ fuel := by
  intro fuel
  induction fuel with
  | zero =>
    intro i lerr
    unfold geminiTryChatAux
    cases lerr <;> simp
  | succ n ih =>
    intro i lerr
    unfold geminiTryChatAux
    cases h : outcomes i with
    | ok b =>
      rcases hc : checkEmptyChoices stream cliMode b with _ | e <;> simp [hc]
      exact ih (i + 1) (some e)
    | err e =>
      cases e <;> simp
      exact ih (i + 1) _

/-- C4 (amended): every chat request performs at most `max_retries + 1`
attempts.  Claude path: an `InvalidCookie` error consumes one attempt
and continues with a fresh lease, any other error is propagated
immediately after its attempt.  Gemini path: an upstream
`GeminiHttpError` consumes one attempt and continues, and so does ANY
failure of the post-success `check_empty_choices` validation (empty
candidates, finish reason `OTHER`, or a response-body parse failure) —
only non-HTTP dispatch errors propagate immediately. -/
theorem retry_loop_spec :
    (∀ (maxRetries : Nat) (outcomes : Nat → ClaudeAttempt),
      (claudeTryChat maxRetries outcomes).2 ≤ maxRetries + 1) ∧
    (∀ (maxRetries : Nat) (stream cliMode : Bool) (outcomes : Nat → GeminiSendOutcome),
      (geminiTryChat maxRetries stream cliMode outcomes).2 ≤ maxRetries + 1) ∧
    (∀ (maxRetries : Nat) (outcomes : Nat → ClaudeAttempt),
      outcomes 0 = .ok → claudeTryChat maxRetries outcomes = (.ok, 1)) ∧
    (∀ (maxRetries : Nat) (outcomes : Nat → ClaudeAttempt) (e : ClewdrErr),
      outcomes 0 = .err e → (∀ r, e ≠ .invalidCookie r) →
      claudeTryChat maxRetries outcomes = (.err e, 1)) ∧
    (∀ (outcomes : Nat → ClaudeAttempt) (i fuel : Nat) (r : Reason),
      outcomes i = .err (.invalidCookie r) →
      claudeTryChatAux outcomes i (fuel + 1) =
        ((claudeTryChatAux outcomes (i + 1) fuel).1,
          (claudeTryChatAux outcomes (i + 1) fuel).2 + 1)) ∧
    (∀ (maxRetries : Nat) (stream cliMode : Bool)
        (outcomes : Nat → GeminiSendOutcome) (e : ClewdrErr),
      outcomes 0 = .err e → (∀ c, e ≠ .geminiHttp c) →
      geminiTryChat maxRetries stream cliMode outcomes = (.err e, 1)) ∧
    (∀ (stream cliMode : Bool) (outcomes : Nat → GeminiSendOutcome)
        (i fuel : Nat) (lerr : Option ClewdrErr) (code : Nat),
      outcomes i = .err (.geminiHttp code) →
      geminiTryChatAux stream cliMode outcomes i (fuel + 1) lerr =
        ((geminiTryChatAux stream cliMode outcomes (i + 1) fuel
            (some (.geminiHttp code))).1,
          (geminiTryChatAux stream cliMode outcomes (i + 1) fuel
            (some (.geminiHttp code))).2 + 1)) ∧
    (∀ (stream cliMode : Bool) (outcomes : Nat → GeminiSendOutcome)
        (i fuel : Nat) (lerr : Option ClewdrErr) (b : GeminiBody) (e : ClewdrErr),
      outcomes i = .ok b → checkEmptyChoices stream cliMode b = some e →
      geminiTryChatAux stream cliMode outcomes i (fuel + 1) lerr =
        ((geminiTryChatAux stream cliMode outcomes (i + 1) fuel (some e)).1,
          (geminiTryChatAux stream cliMode outcomes (i + 1) fuel (some e)).2 + 1)) := by
  refine ⟨?_, ?_, ?_, ?_, ?_, ?_, ?_, ?_⟩
  · intro maxRetries outcomes
    exact claudeTryChatAux_le outcomes (maxRetries + 1) 0
  · intro maxRetries stream cliMode outcomes
    exact geminiTryChatAux_le stream cliMode outcomes (maxRetries + 1) 0 none
  · intro maxRetries outcomes h
    unfold claudeTryChat claudeTryChatAux
    rw [h]
  · intro maxRetries outcomes e h h2
    unfold claudeTryChat claudeTryChatAux
    rw [h]
    cases e with
    | invalidCookie r => exact absurd rfl (h2 r)
    | _ => rfl
  · intro outcomes i fuel r h
    simp [claudeTryChatAux, h]
  · intro maxRetries stream cliMode outcomes e h h2
    unfold geminiTryChat geminiTryChatAux
    rw [h]
    cases e with
    | geminiHttp c => exact absurd rfl (h2 c)
    | _ => rfl
  · intro stream cliMode outcomes i fuel lerr code h
    simp [geminiTryChatAux, h]
  · intro stream cliMode outcomes i fuel lerr b e h hc
    simp [geminiTryChatAux, h, hc]

/-- C4 counterexample: with `max_retries = 1`, a 2xx Gemini response
whose body fails to parse — an error that is neither an upstream Gemini
HTTP error nor empty-choices — is retried rather than propagated
immediately: both attempts are consumed, refuting that any such error
"is propagated immediately without consuming further attempts". -/
theorem retry_loop_counterexample :
    geminiTryChat 1 false false (fun _ => .ok ⟨false, false, false⟩) =
      (.err .jsonError, 2) ∧
    (geminiTryChat 1 false false (fun _ => .ok ⟨false, false, false⟩)).2 ≠ 1 := by
  refine ⟨rfl, by decide⟩

/-- Witness for `retry_loop_spec` at concrete inputs. -/
theorem retry_loop_spec_witness :
    claudeTryChat 3 (fun _ => .err .wreqError) = (.err .wreqError, 1) ∧
    geminiTryChat 3 false false (fun _ => .err .unexpectedNone) =
      (.err .unexpectedNone, 1) := by
  constructor
  · exact retry_loop_spec.2.2.2.1 3 (fun _ => .err .wreqError) .wreqError rfl
      (fun r => by simp)
  · exact retry_loop_spec.2.2.2.2.2.1 3 false false (fun _ => .err .unexpectedNone)
      .unexpectedNone rfl (fun c => by simp)

/-! ### C7 -/

/-- C7: for a leased CLI bearer token: when `now + 5 minutes ≥
expires_at` and the four refresh-metadata fields are present, a POST
with `grant_type=refresh_token` (and the client credentials) is made to
the token's endpoint, and on a successful token response the token and
expiry are overwritten and the updated record is returned to its actor;
when the token is not near expiry, has no expiry, or lacks refresh
metadata, no POST is made and the stored token is used as-is. -/
theorem cli_token_refresh_spec (now now2 : Int) (t : CliTokenStatus)
    (resp : Option RefreshResponse) :
    (∀ exp m cid cs rt uri acc ei,
      t.expiry = some exp → exp ≤ now + 300 → t.meta = some m →
      m.client_id = some cid → m.client_secret = some cs →
      m.refresh_token = some rt → m.token_uri = some uri →
      resp = some ⟨some acc, some ei⟩ →
      cliPrepareToken now now2 t resp =
        .ok ⟨acc, { t with token := acc, expiry := some (now2 + ei) },
          some (uri, [("grant_type", "refresh_token"), ("client_id", cid),
            ("client_secret", cs), ("refresh_token", rt)]), true⟩) ∧
    (∀ exp, t.expiry = some exp → now + 300 < exp →
      cliPrepareToken now now2 t resp = .ok ⟨t.token, t, none, false⟩) ∧
    (t.expiry = none →
      cliPrepareToken now now2 t resp = .ok ⟨t.token, t, none, false⟩) ∧
    (∀ exp, t.expiry = some exp → t.meta = none →
      cliPrepareToken now now2 t resp = .ok ⟨t.token, t, none, false⟩) ∧
    (∀ exp m, t.expiry = some exp → t.meta = some m → m.refresh_token = none →
      cliPrepareToken now now2 t resp = .ok ⟨t.token, t, none, false⟩) := by
  refine ⟨?_, ?_, ?_, ?_, ?_⟩
  · intro exp m cid cs rt uri acc ei hexp hle hm hcid hcs hrt huri hresp
    simp only [cliPrepareToken, hexp]
    rw [if_pos (show exp - 300 ≤ now by omega)]
    simp [hm, hcid, hcs, hrt, huri, hresp]
  · intro exp hexp hlt
    simp only [cliPrepareToken, hexp]
    rw [if_neg (show ¬ exp - 300 ≤ now by omega)]
  · intro hexp
    simp [cliPrepareToken, hexp]
  · intro exp hexp hmeta
    simp only [cliPrepareToken, hexp]
    by_cases h : exp - 300 ≤ now
    · rw [if_pos h]
      simp [hmeta]
    · rw [if_neg h]
  · intro exp m hexp hm hrt
    simp only [cliPrepareToken, hexp]
    by_cases h : exp - 300 ≤ now
    · rw [if_pos h]
      rcases hc1 : m.client_id with _ | cid <;>
        rcases hc2 : m.client_secret with _ | cs <;>
          rcases hc3 : m.token_uri with _ | uri <;>
            simp [hm, hrt, hc1, hc2, hc3]
    · rw [if_neg h]

/-- Witness for `cli_token_refresh_spec`: a token expiring inside the
5-minute window is refreshed, updated, and returned. -/
theorem cli_token_refresh_spec_witness :
    cliPrepareToken 1000 1010
        ⟨"old", 0, some 1200,
          some ⟨some "id", some "sec", some "rt", some "uri", none, some "proj"⟩⟩
        (some ⟨some "new", some 3600⟩) =
      .ok ⟨"new",
        ⟨"new", 0, some (1010 + 3600),
          some ⟨some "id", some "sec", some "rt", some "uri", none, some "proj"⟩⟩,
        some ("uri", [("grant_type", "refresh_token"), ("client_id", "id"),
          ("client_secret", "sec"), ("refresh_token", "rt")]), true⟩ :=
  (cli_token_refresh_spec 1000 1010 _ _).1 1200 _ "id" "sec" "rt" "uri" "new" 3600
    rfl (by omega) rfl rfl rfl rfl rfl rfl

/-! ### C2 -/

/-- C2 counterexample: with the Sonnet lane's learned flag unset, the
probe is sent and succeeds, yet NOTHING is recorded or persisted — in
particular the flag is never recorded as `true`.  (The probe state that
`persist_1m_mode` does write on the failure path lives in the global
config's `enable_1m_sonnet`/`enable_1m_opus`, not in the credential.) -/
theorem claude_1m_probe_counterexample :
    claudeSendChat none none "claude-sonnet-4-5".toList (fun _ => .ok) =
      ⟨.ok, [true], []⟩ ∧
    (Claude1mLane.sonnet, some true) ∉
      (claudeSendChat none none "claude-sonnet-4-5".toList (fun _ => .ok)).persists := by
  exact ⟨by decide, by decide⟩

/-- C2 (amended): when the probed lane's learned flag — stored in the
global config (`enable_1m_sonnet` / `enable_1m_opus`), not in the
credential — is unset, the request is sent with the beta token as a
probe (attempts `[true, false]`); a successful response records and
persists nothing; a non-1M-specific error propagates without persisting;
a 1M-specific denial records the lane flag as `false`, persists the
config change, and retries without the token. -/
theorem claude_1m_probe_spec (e1 e2 : Option Bool) (model : List Char)
    (outcomes : Nat → ClaudeAttempt) (l : Claude1mLane)
    (hl : claude_1m_lane (strip1mSuffix model).1 = some l)
    (hcfg : configured_1m_mode e1 e2 l = none) :
    (probeAttempts ((claude_1m_lane (strip1mSuffix model).1).bind
        (configured_1m_mode e1 e2)) (claude_1m_lane (strip1mSuffix model).1).isSome
        (strip1mSuffix model).2 = [true, false]) ∧
    (outcomes 0 = .ok →
      claudeSendChat e1 e2 model outcomes = ⟨.ok, [true], []⟩) ∧
    (∀ e, outcomes 0 = .err e → is_context_1m_forbidden e = false →
      claudeSendChat e1 e2 model outcomes = ⟨.err e, [true], []⟩) ∧
    (∀ e, outcomes 0 = .err e → is_context_1m_forbidden e = true →
      outcomes 1 = .ok →
      claudeSendChat e1 e2 model outcomes = ⟨.ok, [true, false], [(l, some false)]⟩) := by
  have hattempts : probeAttempts ((claude_1m_lane (strip1mSuffix model).1).bind
      (configured_1m_mode e1 e2)) (claude_1m_lane (strip1mSuffix model).1).isSome
      (strip1mSuffix model).2 = [true, false] := by
    rw [hl]
    simp [probeAttempts, hcfg]
  have hpa : probeAttempts none true (strip1mSuffix model).2 = [true, false] := by
    simp [probeAttempts]
  refine ⟨hattempts, ?_, ?_, ?_⟩
  · intro h0
    simp only [claudeSendChat, hl, Option.some_bind, Option.isSome_some]
    rw [hcfg, hpa]
    simp [claudeSendChatLoop, h0]
  · intro e h0 hforb
    simp only [claudeSendChat, hl, Option.some_bind, Option.isSome_some]
    rw [hcfg, hpa]
    simp [claudeSendChatLoop, h0, hforb]
  · intro e h0 hforb h1
    simp only [claudeSendChat, hl, Option.some_bind, Option.isSome_some]
    rw [hcfg, hpa]
    simp [claudeSendChatLoop, h0, hforb, h1, persist1mActions]

/-- Witness for `claude_1m_probe_spec`: an Opus-lane probe denied with a
1M-specific 403 disables the lane in config and succeeds without the
token on the second attempt. -/
theorem claude_1m_probe_spec_witness :
    claudeSendChat none none "claude-opus-4-6".toList
        (fun i => if i = 0 then
          .err (.claudeHttp 403
            "The long context beta is not yet available for this subscription")
          else .ok) =
      ⟨.ok, [true, false], [(Claude1mLane.opus, some false)]⟩ := by
  exact (claude_1m_probe_spec none none "claude-opus-4-6".toList _ .opus (by decide)
    rfl).2.2.2 _ rfl (by decide) rfl

/-! ### C6 -/

/-- The success-branch per-window update preserves the strengthened
reset invariant. -/
theorem updateWindowSuccess_resetInv (w : WindowState) (d : Bool) (val : Option Int)
    (h : ResetInv w) : ResetInv (updateWindowSuccess w d val) := by
  rcases w with ⟨hr, ra, u⟩
  unfold ResetInv at h ⊢
  unfold updateWindowSuccess
  simp only at h ⊢
  rcases hr with _ | b
  · rcases val with _ | ts <;> simp_all
  · cases b
    · rcases val with _ | ts <;> simp_all
    · rcases val with _ | ts <;> simp_all

/-- The failure-branch per-window update preserves the strengthened
reset invariant (given that `tr` reflects the tracked flag). -/
theorem updateWindowFailure_resetInv (now win : Int) (w : WindowState) (d tr : Bool)
    (h : ResetInv w) (htr : tr = true → w.has_reset = some true) :
    ResetInv (updateWindowFailure now win w d tr) := by
  unfold updateWindowFailure
  by_cases hd : (d && tr) = true
  · rw [if_pos hd]
    unfold ResetInv
    simp only
    have htr2 : tr = true := by
      cases tr
      · simp at hd
      · rfl
    rw [htr htr2]
    simp
  · rw [if_neg hd]
    exact h

/-- C6 counterexample: the invariant literally as claimed
(`has_reset = true → resets_at` Some, `has_reset = false → resets_at`
None) admits the state `has_reset = None, resets_at = Some 100`; one
call of `update_cookie_boundaries_if_due` on it — with the usage
endpoint reporting no session boundary — produces
`has_reset = Some false` while leaving `resets_at = Some 100`, violating
the claimed invariant. -/
theorem update_boundaries_counterexample :
    WeakResetInv ⟨none, some 100, default⟩ ∧
    (update_cookie_boundaries_if_due 0 (some ⟨none, none, none, none⟩)
        ⟨⟨none, some 100, default⟩, ⟨none, none, default⟩,
          ⟨none, none, default⟩, ⟨none, none, default⟩, none⟩).session =
      ⟨some false, some 100, default⟩ ∧
    ¬ WeakResetInv ⟨some false, some 100, default⟩ := by
  refine ⟨by decide, by decide, by decide⟩

/-- C6 (amended): the invariant that actually holds couples all three
states: `resets_at` is `Some` exactly when `has_reset = Some true`
(in particular the unknown state carries no boundary).  Under this
invariant, `update_cookie_boundaries_if_due` — for every `now` and
every usage-endpoint outcome — yields a state that still satisfies it,
for each of the four windows. -/
theorem update_boundaries_resetInv (now : Int) (fetch : Option UsageResets)
    (c : CookieUsageState)
    (h1 : ResetInv c.session) (h2 : ResetInv c.weekly)
    (h3 : ResetInv c.weekly_sonnet) (h4 : ResetInv c.weekly_opus) :
    ResetInv (update_cookie_boundaries_if_due now fetch c).session ∧
    ResetInv (update_cookie_boundaries_if_due now fetch c).weekly ∧
    ResetInv (update_cookie_boundaries_if_due now fetch c).weekly_sonnet ∧
    ResetInv (update_cookie_boundaries_if_due now fetch c).weekly_opus := by
  simp only [update_cookie_boundaries_if_due]
  split
  · exact ⟨h1, h2, h3, h4⟩
  · cases fetch with
    | some r =>
      exact ⟨updateWindowSuccess_resetInv _ _ _ h1,
        updateWindowSuccess_resetInv _ _ _ h2,
        updateWindowSuccess_resetInv _ _ _ h3,
        updateWindowSuccess_resetInv _ _ _ h4⟩
    | none =>
      exact ⟨updateWindowFailure_resetInv _ _ _ _ _ h1 (fun ht => by simpa using ht),
        updateWindowFailure_resetInv _ _ _ _ _ h2 (fun ht => by simpa using ht),
        updateWindowFailure_resetInv _ _ _ _ _ h3 (fun ht => by simpa using ht),
        updateWindowFailure_resetInv _ _ _ _ _ h4 (fun ht => by simpa using ht)⟩

/-- Witness for `update_boundaries_resetInv` at a concrete cookie state
and a failed usage fetch. -/
theorem update_boundaries_resetInv_witness :
    ResetInv (update_cookie_boundaries_if_due 50 none
      ⟨⟨some true, some 10, default⟩, ⟨some false, none, default⟩,
        ⟨none, none, default⟩, ⟨some true, some 100, default⟩, none⟩).session :=
  (update_boundaries_resetInv 50 none _ (by decide) (by decide) (by decide)
    (by decide)).1

/-! ### C3 -/

/-- Once the scan has seen a marker, it reports it. -/
theorem streamRemoveMarkerAux_seen (fuel : Nat) :
    ∀ (pre rest : List Nat), (streamRemoveMarkerAux fuel pre rest true).2 = true := by
  induction fuel with
  | zero => intro pre rest; rfl
  | succ n ih =>
    intro pre rest
    unfold streamRemoveMarkerAux
    by_cases h : DONE_MARKER.length ≤ rest.length
    · rw [if_pos h]
      by_cases h2 : rest.take DONE_MARKER.length = DONE_MARKER
      · rw [if_pos h2]
        exact ih _ _
      · rw [if_neg h2]
        cases rest with
        | nil => rfl
        | cons r rs => exact ih _ _
    · rw [if_neg h]

/-- An infix of `r :: rs` that is not a prefix is an infix of `rs`. -/
theorem isInfix_tail_of_not_isPrefix {α : Type _} {m : List α} {r : α} {rs : List α}
    (h : m <:+: r :: rs) (hp : ¬ m <+: r :: rs) : m <:+: rs := by
  obtain ⟨s, t, hst⟩ := h
  cases s with
  | nil => exact absurd ⟨t, by simpa using hst⟩ hp
  | cons a s' =>
    refine ⟨s', t, ?_⟩
    have h2 : a = r ∧ s' ++ m ++ t = rs := by simpa using hst
    exact h2.2

/-- If the unscanned part still contains the marker, the scan reports
it. -/
theorem streamRemoveMarkerAux_infix :
    ∀ (fuel : Nat) (pre rest : List Nat) (seen : Bool), rest.length ≤ fuel →
      DONE_MARKER <:+: rest → (streamRemoveMarkerAux fuel pre rest seen).2 = true := by
  intro fuel
  induction fuel with
  | zero =>
    intro pre rest seen hle hinf
    have h1 := hinf.length_le
    have h2 : DONE_MARKER.length = 6 := by decide
    omega
  | succ n ih =>
    intro pre rest seen hle hinf
    have hlen : DONE_MARKER.length ≤ rest.length := hinf.length_le
    unfold streamRemoveMarkerAux
    rw [if_pos hlen]
    by_cases h2 : rest.take DONE_MARKER.length = DONE_MARKER
    · rw [if_pos h2]
      exact streamRemoveMarkerAux_seen n _ _
    · rw [if_neg h2]
      cases rest with
      | nil => simp [DONE_MARKER] at hlen
      | cons r rs =>
        have hp : ¬ DONE_MARKER <+: r :: rs := by
          intro hpre
          apply h2
          obtain ⟨t, ht⟩ := hpre
          rw [← ht]
          exact List.take_left DONE_MARKER t
        have hle' : rs.length ≤ n := by
          simp only [List.length_cons] at hle
          omega
        exact ih _ rs seen hle' (isInfix_tail_of_not_isPrefix hinf hp)

/-- `processAttempt` forwards every chunk through the marker scan and
reports whether any chunk contained the marker. -/
theorem processAttempt_eq (chunks : List (List Nat)) :
    processAttempt chunks =
      (chunks.map (fun ch => (streamRemoveMarker ch).1),
        chunks.any (fun ch => (streamRemoveMarker ch).2)) := by
  suffices h : ∀ (acc : List (List Nat) × Bool),
      chunks.foldl
        (fun acc ch =>
          let r := streamRemoveMarker ch
          (acc.1 ++ [r.1], acc.2 || r.2)) acc =
        (acc.1 ++ chunks.map (fun ch => (streamRemoveMarker ch).1),
          acc.2 || chunks.any (fun ch => (streamRemoveMarker ch).2)) by
    simpa [processAttempt] using h ([], false)
  induction chunks with
  | nil => intro acc; simp
  | cons ch rest ih =>
    intro acc
    simp [ih, Bool.or_assoc]

/-- C3 counterexample: the upstream's first SSE chunk `"[do[done]ne]"`
contains the sentinel; the anti-truncation loop does stop after one
attempt, but the emitted body is exactly `"[done]"` — the splice of a
removal re-creates the sentinel, so the body does NOT have zero
occurrences of it. -/
theorem anti_truncation_counterexample :
    DONE_MARKER <:+: [91, 100, 111, 91, 100, 111, 110, 101, 93, 110, 101, 93] ∧
    antiTruncation
        (fun _ => [[91, 100, 111, 91, 100, 111, 110, 101, 93, 110, 101, 93]]) =
      ([[91, 100, 111, 110, 101, 93]], 1) ∧
    DONE_MARKER <:+:
      (antiTruncation
        (fun _ => [[91, 100, 111, 91, 100, 111, 110, 101, 93, 110, 101, 93]])).1.flatten := by
  refine ⟨by decide, by decide, by decide⟩

/-- C3 (amended): if the upstream emits the sentinel inside the first
SSE chunk, the anti-truncation loop terminates after exactly 1 attempt
(no continuation request is issued), and the body emitted to the client
is the first attempt's chunks each passed through the single left-to-
right marker-removal scan (which strips every occurrence it reaches but
may leave an occurrence spliced together by a removal). -/
theorem anti_truncation_first_chunk (upstream : Nat → List (List Nat)) (c0 : List Nat)
    (hc : (upstream 0).head? = some c0) (hm : DONE_MARKER <:+: c0) :
    antiTruncation upstream =
      ((upstream 0).map (fun ch => (streamRemoveMarker ch).1), 1) := by
  have hseen : (streamRemoveMarker c0).2 = true :=
    streamRemoveMarkerAux_infix c0.length [] c0 false (le_refl _) hm
  obtain ⟨rest0, hrest⟩ : ∃ t, upstream 0 = c0 :: t := by
    cases h : upstream 0 with
    | nil => rw [h] at hc; simp at hc
    | cons a t =>
      rw [h] at hc
      simp only [List.head?_cons, Option.some.injEq] at hc
      exact ⟨t, by rw [hc]⟩
  show antiTruncGo upstream 0 3 = _
  unfold antiTruncGo
  rw [processAttempt_eq, hrest]
  simp [hseen]

/-- Witness for `anti_truncation_first_chunk`: one upstream chunk
`"[done]A"` yields one attempt and the body `"A"`. -/
theorem anti_truncation_first_chunk_witness :
    antiTruncation (fun _ => [[91, 100, 111, 110, 101, 93, 65]]) = ([[65]], 1) :=
  (anti_truncation_first_chunk (fun _ => [[91, 100, 111, 110, 101, 93, 65]])
    [91, 100, 111, 110, 101, 93, 65] rfl (by decide)).trans (by decide)

/-! ### C9 -/

/-- One `push` preserves the accumulator invariant. -/
theorem pushToken_betaAcc (use1m : Bool) (acc : List (List Char) × List (List Char))
    (tok : List Char) (h : BetaAcc use1m acc) : BetaAcc use1m (pushToken use1m acc tok) := by
  obtain ⟨h1, h2, h3⟩ := h
  unfold pushToken
  by_cases ht : trimChars tok = []
  · rw [if_pos ht]
    exact ⟨h1, h2, h3⟩
  · rw [if_neg ht]
    by_cases hg : use1m = false ∧ asciiLower (trimChars tok) = CLAUDE_BETA_CONTEXT_1M_TOKEN
    · rw [if_pos hg]
      exact ⟨h1, h2, h3⟩
    · rw [if_neg hg]
      by_cases hs : asciiLower (trimChars tok) ∈ acc.1
      · rw [if_pos hs]
        exact ⟨h1, h2, h3⟩
      · rw [if_neg hs]
        refine ⟨by simp [h1], ?_, ?_⟩
        · rw [List.map_append]
          rw [List.nodup_append]
          refine ⟨h2, by simp, ?_⟩
          intro x hx hy
          simp only [List.map_cons, List.map_nil, List.mem_singleton] at hy
          subst hy
          exact hs (h1 ▸ hx)
        · intro hu t htmem
          rcases List.mem_append.1 htmem with hmem | hmem
          · exact h3 hu t hmem
          · simp only [List.mem_singleton] at hmem
            subst hmem
            intro heq
            exact hg ⟨hu, heq⟩

/-- One `push` never changes the first merged token. -/
theorem pushToken_head (use1m : Bool) (acc : List (List Char) × List (List Char))
    (tok : List Char) (x : List Char) (h : acc.2.head? = some x) :
    (pushToken use1m acc tok).2.head? = some x := by
  unfold pushToken
  by_cases ht : trimChars tok = []
  · rw [if_pos ht]
    exact h
  · rw [if_neg ht]
    by_cases hg : use1m = false ∧ asciiLower (trimChars tok) = CLAUDE_BETA_CONTEXT_1M_TOKEN
    · rw [if_pos hg]
      exact h
    · rw [if_neg hg]
      by_cases hs : asciiLower (trimChars tok) ∈ acc.1
      · rw [if_pos hs]
        exact h
      · rw [if_neg hs]
        cases hl : acc.2 with
        | nil => rw [hl] at h; cases h
        | cons a rest =>
          rw [hl] at h
          simp only [List.head?_cons, Option.some.injEq] at h
          subst h
          simp [hl]

/-- The fold over the extra tokens preserves the invariant. -/
theorem foldl_pushToken_betaAcc (use1m : Bool) (toks : List (List Char)) :
    ∀ acc, BetaAcc use1m acc → BetaAcc use1m (toks.foldl (pushToken use1m) acc) := by
  induction toks with
  | nil => intro acc h; exact h
  | cons t ts ih =>
    intro acc h
    exact ih _ (pushToken_betaAcc _ _ _ h)

/-- The fold over the extra tokens keeps the first merged token. -/
theorem foldl_pushToken_head (use1m : Bool) (toks : List (List Char)) (x : List Char) :
    ∀ acc, acc.2.head? = some x →
      ((toks.foldl (pushToken use1m) acc).2).head? = some x := by
  induction toks with
  | nil => intro acc h; exact h
  | cons t ts ih =>
    intro acc h
    exact ih _ (pushToken_head _ _ _ _ h)

/-- C9: for every extra header string and every `use_context_1m` flag,
the merged `anthropic-beta` token list has the base OAuth token
`oauth-2025-04-20` as its first token, contains no two tokens equal
modulo ASCII case, and, when `use_context_1m` is false, contains no
`context-1m-2025-08-07` token even if the caller-supplied extra header
includes it; the header sent is the comma-join of this list. -/
theorem merge_beta_header_spec (extra : List Char) (use1m : Bool) :
    (mergeAnthropicBetaTokens (some extra) use1m).head? = some CLAUDE_BETA_BASE ∧
    ((mergeAnthropicBetaTokens (some extra) use1m).map asciiLower).Nodup ∧
    (∀ t ∈ mergeAnthropicBetaTokens (some extra) false,
      asciiLower t ≠ CLAUDE_BETA_CONTEXT_1M_TOKEN) ∧
    mergeAnthropicBetaHeader (some extra) use1m =
      List.intercalate [','] (mergeAnthropicBetaTokens (some extra) use1m) := by
  have htok : mergeAnthropicBetaTokens (some extra) use1m =
      ((splitOnComma extra).foldl (pushToken use1m)
        (if use1m then
          pushToken use1m (pushToken use1m ([], []) CLAUDE_BETA_BASE)
            CLAUDE_BETA_CONTEXT_1M_TOKEN
          else pushToken use1m ([], []) CLAUDE_BETA_BASE)).2 := rfl
  have hstart : BetaAcc use1m
      (if use1m then
        pushToken use1m (pushToken use1m ([], []) CLAUDE_BETA_BASE)
          CLAUDE_BETA_CONTEXT_1M_TOKEN
        else pushToken use1m ([], []) CLAUDE_BETA_BASE) ∧
      (if use1m then
        pushToken use1m (pushToken use1m ([], []) CLAUDE_BETA_BASE)
          CLAUDE_BETA_CONTEXT_1M_TOKEN
        else pushToken use1m ([], []) CLAUDE_BETA_BASE).2.head? =
        some CLAUDE_BETA_BASE := by
    cases use1m
    · exact ⟨by decide, by decide⟩
    · exact ⟨by decide, by decide⟩
  refine ⟨?_, ?_, ?_, rfl⟩
  · rw [htok]
    exact foldl_pushToken_head use1m (splitOnComma extra) _ _ hstart.2
  · rw [htok]
    exact (foldl_pushToken_betaAcc use1m (splitOnComma extra) _ hstart.1).2.1
  · have hstartf : BetaAcc false (pushToken false ([], []) CLAUDE_BETA_BASE) := by decide
    have hfold := foldl_pushToken_betaAcc false (splitOnComma extra) _ hstartf
    intro t ht
    exact hfold.2.2 rfl t ht

/-- Witness for `merge_beta_header_spec`: even when the extra header
smuggles in the 1M token (in mixed case), a surviving token such as
`foo` does not lowercase to it. -/
theorem merge_beta_header_spec_witness :
    asciiLower "foo".toList ≠ CLAUDE_BETA_CONTEXT_1M_TOKEN :=
  (merge_beta_header_spec " context-1M-2025-08-07 ,foo".toList false).2.2.1
    "foo".toList (by decide)

/-! ### C1 -/

/-- Appending the same tail preserves the suffix relation. -/
theorem isSuffix_append_same {α : Type _} {u v : List α} (w : List α) (h : u <:+ v) :
    u ++ w <:+ v ++ w := by
  obtain ⟨t, ht⟩ := h
  exact ⟨t, by rw [← ht, List.append_assoc]⟩

/-- A nonempty suffix of `l ++ [a]` ends in `a` and its front is a
suffix of `l`. -/
theorem suffix_snoc_decomp {α : Type _} {u l : List α} {a : α} (hne : u ≠ [])
    (h : u <:+ l ++ [a]) : ∃ u', u = u' ++ [a] ∧ u' <:+ l := by
  obtain ⟨t, ht⟩ := h
  obtain ⟨u', b, rfl⟩ : ∃ u' b, u = u' ++ [b] := by
    rcases List.eq_nil_or_concat u with rfl | ⟨u', b, h'⟩
    · exact absurd rfl hne
    · exact ⟨u', b, by simpa [List.concat_eq_append] using h'⟩
  have ht' : (t ++ u') ++ [b] = l ++ [a] := by
    rw [← ht, List.append_assoc]
  have hb : b = a := by
    have h2 := congrArg List.getLast? ht'
    simpa [List.getLast?_concat] using h2
  subst hb
  have hfront : t ++ u' = l := by
    have h2 := congrArg List.dropLast ht'
    simpa [List.dropLast_concat] using h2
  exact ⟨u', rfl, ⟨t, hfront⟩⟩

/-- An infix of `l ++ [a]` is a suffix of `l ++ [a]` or an infix of
`l`. -/
theorem isInfix_snoc_cases {α : Type _} {s l : List α} {a : α}
    (h : s <:+: l ++ [a]) : s <:+ l ++ [a] ∨ s <:+: l := by
  obtain ⟨p, q, hpq⟩ := h
  rcases List.eq_nil_or_concat q with rfl | ⟨q', b, hq⟩
  · left
    exact ⟨p, by simpa using hpq⟩
  · right
    subst hq
    have hpq' : (p ++ s ++ q') ++ [b] = l ++ [a] := by
      rw [← hpq]
      simp [List.concat_eq_append, List.append_assoc]
    have hfront : p ++ s ++ q' = l := by
      have h2 := congrArg List.dropLast hpq'
      simpa [List.dropLast_concat] using h2
    exact ⟨p, q', hfront⟩

/-- An infix of a prefix is an infix of the whole. -/
theorem isInfix_of_isInfix_of_isPrefix {α : Type _} {s u v : List α}
    (h1 : s <:+: u) (h2 : u <+: v) : s <:+: v :=
  List.IsInfix.trans h1 h2.isInfix

/-- A matched walk reported by the scan comes from extending one of the
given walks by `c` to a sentinel. -/
theorem scanActive_some (S : Sentinels) (c : Char) :
    ∀ (l : List (List Char)) (seq : List Char),
      (scanActive S c l).2.2 = some seq → ∃ b ∈ l, seq = b ++ [c] ∧ seq ∈ S := by
  intro l
  induction l with
  | nil =>
    intro seq h
    simp [scanActive] at h
  | cons b rest ih =>
    intro seq h
    unfold scanActive at h
    by_cases h1 : isNode S (b ++ [c])
    · rw [if_pos h1] at h
      by_cases h2 : (b ++ [c]) ∈ S
      · rw [if_pos h2] at h
        simp only [Option.some.injEq] at h
        exact ⟨b, by simp, h.symm, h ▸ h2⟩
      · rw [if_neg h2] at h
        simp only at h
        obtain ⟨b', hb', hs1, hs2⟩ := ih seq h
        exact ⟨b', by simp [hb'], hs1, hs2⟩
    · rw [if_neg h1] at h
      obtain ⟨b', hb', hs1, hs2⟩ := ih seq h
      exact ⟨b', by simp [hb'], hs1, hs2⟩

/-- When the scan reports no match: the surviving walks are exactly the
live non-sentinel extensions of the given walks, and no live extension
is a sentinel. -/
theorem scanActive_none (S : Sentinels) (c : Char) :
    ∀ (l : List (List Char)), (scanActive S c l).2.2 = none →
      (∀ nb ∈ (scanActive S c l).1,
        (∃ b ∈ l, nb = b ++ [c]) ∧ isNode S nb ∧ nb ∉ S) ∧
      (∀ b ∈ l, isNode S (b ++ [c]) → (b ++ [c]) ∈ (scanActive S c l).1) ∧
      (∀ b ∈ l, isNode S (b ++ [c]) → (b ++ [c]) ∉ S) ∧
      (∀ nb ∈ (scanActive S c l).1, nb.length ≤ (scanActive S c l).2.1) := by
  intro l
  induction l with
  | nil =>
    intro _
    refine ⟨?_, ?_, ?_, ?_⟩ <;> simp [scanActive]
  | cons b rest ih =>
    intro h
    unfold scanActive at h ⊢
    by_cases h1 : isNode S (b ++ [c])
    · rw [if_pos h1] at h ⊢
      by_cases h2 : (b ++ [c]) ∈ S
      · rw [if_pos h2] at h
        simp at h
      · rw [if_neg h2] at h ⊢
        simp only at h ⊢
        obtain ⟨ih1, ih2, ih3, ih4⟩ := ih h
        refine ⟨?_, ?_, ?_, ?_⟩
        · intro nb hnb
          rcases List.mem_cons.1 hnb with rfl | hnb
          · exact ⟨⟨b, by simp⟩, h1, h2⟩
          · obtain ⟨⟨b', hb', e1⟩, e2, e3⟩ := ih1 nb hnb
            exact ⟨⟨b', by simp [hb'], e1⟩, e2, e3⟩
        · intro b' hb' hn
          rcases List.mem_cons.1 hb' with rfl | hb'
          · exact List.mem_cons_self _ _
          · exact List.mem_cons_of_mem _ (ih2 b' hb' hn)
        · intro b' hb' hn
          rcases List.mem_cons.1 hb' with rfl | hb'
          · exact h2
          · exact ih3 b' hb' hn
        · intro nb hnb
          rcases List.mem_cons.1 hnb with rfl | hnb
          · exact le_max_left _ _
          · exact le_trans (ih4 nb hnb) (le_max_right _ _)
    · rw [if_neg h1] at h ⊢
      obtain ⟨ih1, ih2, ih3, ih4⟩ := ih h
      refine ⟨?_, ?_, ?_, ?_⟩
      · intro nb hnb
        obtain ⟨⟨b', hb', e1⟩, e2, e3⟩ := ih1 nb hnb
        exact ⟨⟨b', by simp [hb'], e1⟩, e2, e3⟩
      · intro b' hb' hn
        rcases List.mem_cons.1 hb' with rfl | hb'
        · exact absurd hn h1
        · exact ih2 b' hb' hn
      · intro b' hb' hn
        rcases List.mem_cons.1 hb' with rfl | hb'
        · exact absurd hn h1
        · exact ih3 b' hb' hn
      · exact ih4

/-- `max_match_length` is bounded by any bound on the extended walk
lengths. -/
theorem scanActive_maxLen_le (S : Sentinels) (c : Char) (N : Nat) :
    ∀ (l : List (List Char)), (∀ b ∈ l, b.length + 1 ≤ N) →
      (scanActive S c l).2.1 ≤ N := by
  intro l
  induction l with
  | nil =>
    intro _
    simp [scanActive]
  | cons b rest ih =>
    intro hb
    unfold scanActive
    by_cases h1 : isNode S (b ++ [c])
    · rw [if_pos h1]
      by_cases h2 : (b ++ [c]) ∈ S
      · rw [if_pos h2]
        simp
      · rw [if_neg h2]
        simp only
        refine max_le ?_ (ih (fun b' h' => hb b' (List.mem_cons_of_mem _ h')))
        simpa using hb b (List.mem_cons_self _ _)
    · rw [if_neg h1]
      exact ih (fun b' h' => hb b' (List.mem_cons_of_mem _ h'))

/-- One `process_char` step: from an invariant state, a no-match step
re-establishes the invariant on the extended input, and a match step
clears the state, releases nothing, and reports a sentinel that is a
suffix of the consumed input. -/
theorem processChar_inv (S : Sentinels) (st : MatcherState) (c : Char)
    (consumed emitted : List Char) (h : MatcherInv S st consumed emitted) :
    ((processChar S st c).2.2 = none →
      MatcherInv S (processChar S st c).1 (consumed ++ [c])
        (emitted ++ ((processChar S st c).2.1).getD [])) ∧
    (∀ seq, (processChar S st c).2.2 = some seq →
      (processChar S st c).1 = ⟨[], []⟩ ∧ (processChar S st c).2.1 = none ∧
      seq ∈ S ∧ seq <:+ (consumed ++ [c])) := by
  obtain ⟨hdec, hsound, hcomp, hnos⟩ := h
  have hbufcons : st.buffered <:+ consumed := ⟨emitted, hdec⟩
  have hAsuffix : ∀ b ∈ st.active ++ [[]], b <:+ st.buffered := by
    intro b hb
    rcases List.mem_append.1 hb with hb | hb
    · exact (hsound b hb).2.1
    · simp only [List.mem_singleton] at hb
      subst hb
      exact List.nil_suffix
  cases hr : (scanActive S c (st.active ++ [[]])).2.2 with
  | some seq =>
    have hpc : processChar S st c = (⟨[], []⟩, none, some seq) := by
      simp only [processChar, hr]
    obtain ⟨b, hbA, hseq, hseqS⟩ := scanActive_some S c _ seq hr
    have hsufseq : seq <:+ consumed ++ [c] := by
      rw [hseq]
      exact List.IsSuffix.trans (isSuffix_append_same [c] (hAsuffix b hbA))
        (isSuffix_append_same [c] hbufcons)
    constructor
    · intro hnone
      rw [hpc] at hnone
      cases hnone
    · intro seq' hsome
      rw [hpc] at hsome
      simp only [Option.some.injEq] at hsome
      subst hsome
      exact ⟨by rw [hpc], by rw [hpc], hseqS, hsufseq⟩
  | none =>
    obtain ⟨s1, s2, s3, s4⟩ := scanActive_none S c _ hr
    have hNbound : ∀ b ∈ st.active ++ [[]], b.length + 1 ≤ (st.buffered ++ [c]).length := by
      intro b hb
      have hle := (hAsuffix b hb).length_le
      simp only [List.length_append, List.length_singleton]
      omega
    have hml : (scanActive S c (st.active ++ [[]])).2.1 ≤ (st.buffered ++ [c]).length :=
      scanActive_maxLen_le S c _ _ hNbound
    have hsound1 : ∀ nb ∈ (scanActive S c (st.active ++ [[]])).1,
        nb ≠ [] ∧ nb <:+ (st.buffered ++ [c]) ∧ isNode S nb := by
      intro nb hnb
      obtain ⟨⟨b, hbA, rfl⟩, hnode, _⟩ := s1 nb hnb
      exact ⟨by simp, isSuffix_append_same [c] (hAsuffix b hbA), hnode⟩
    have hcomp1 : ∀ u, u ≠ [] → u <:+ (consumed ++ [c]) → isNode S u →
        u ∈ (scanActive S c (st.active ++ [[]])).1 := by
      intro u hne hsuf hnode
      obtain ⟨u', rfl, hu'⟩ := suffix_snoc_decomp hne hsuf
      by_cases hu'e : u' = []
      · subst hu'e
        exact s2 [] (by simp) hnode
      · have hnodeu' : isNode S u' := by
          obtain ⟨s0, hs0, hps⟩ := hnode
          exact ⟨s0, hs0, List.IsPrefix.trans ⟨[c], rfl⟩ hps⟩
        exact s2 u' (List.mem_append.2 (Or.inl (hcomp u' hu'e hu' hnodeu'))) hnode
    have hnos1 : ∀ s ∈ S, s ≠ [] → ¬ s <:+: (consumed ++ [c]) := by
      intro s hsS hsne hinf
      rcases isInfix_snoc_cases hinf with hsul | hinfc
      · obtain ⟨u', rfl, hu'⟩ := suffix_snoc_decomp hsne hsul
        have hnode : isNode S (u' ++ [c]) := ⟨_, hsS, List.prefix_refl _⟩
        by_cases hu'e : u' = []
        · subst hu'e
          exact s3 [] (by simp) hnode hsS
        · have hnodeu' : isNode S u' := ⟨_, hsS, ⟨[c], rfl⟩⟩
          exact s3 u' (List.mem_append.2 (Or.inl (hcomp u' hu'e hu' hnodeu'))) hnode hsS
      · exact hnos s hsS hsne hinfc
    have hpcnone : (processChar S st c).2.2 = none := by
      by_cases hlt : (scanActive S c (st.active ++ [[]])).2.1 < (st.buffered ++ [c]).length
      · simp only [processChar, hr]
        rw [if_pos hlt]
      · simp only [processChar, hr]
        rw [if_neg hlt]
    constructor
    · intro _
      by_cases hlt : (scanActive S c (st.active ++ [[]])).2.1 < (st.buffered ++ [c]).length
      · have hpc : processChar S st c =
            (⟨(st.buffered ++ [c]).drop ((st.buffered ++ [c]).length -
                (scanActive S c (st.active ++ [[]])).2.1),
              (scanActive S c (st.active ++ [[]])).1⟩,
              some ((st.buffered ++ [c]).take ((st.buffered ++ [c]).length -
                (scanActive S c (st.active ++ [[]])).2.1)), none) := by
          simp only [processChar, hr]
          rw [if_pos hlt]
        rw [hpc]
        simp only [Option.getD_some]
        refine ⟨?_, ?_, ?_, ?_⟩
        · rw [List.append_assoc, List.take_append_drop, ← List.append_assoc, hdec]
        · intro b hb
          obtain ⟨hne, hsuf, hnode⟩ := hsound1 b hb
          refine ⟨hne, ?_, hnode⟩
          have hlen1 : b.length ≤ (scanActive S c (st.active ++ [[]])).2.1 := s4 b hb
          have hdlen : (((st.buffered ++ [c]).drop ((st.buffered ++ [c]).length -
              (scanActive S c (st.active ++ [[]])).2.1))).length =
              (scanActive S c (st.active ++ [[]])).2.1 := by
            simp only [List.length_drop]
            omega
          exact List.suffix_of_suffix_length_le hsuf (List.drop_suffix _ _)
            (by rw [hdlen]; exact hlen1)
        · exact hcomp1
        · exact hnos1
      · have hpc : processChar S st c =
            (⟨st.buffered ++ [c], (scanActive S c (st.active ++ [[]])).1⟩, none, none) := by
          simp only [processChar, hr]
          rw [if_neg hlt]
        rw [hpc]
        simp only [Option.getD_none, List.append_nil]
        refine ⟨?_, ?_, ?_, ?_⟩
        · rw [← List.append_assoc, hdec]
        · exact hsound1
        · exact hcomp1
        · exact hnos1
    · intro seq hsome
      rw [hpcnone] at hsome
      cases hsome

/-- Chunk-level invariant: processing a chunk from an invariant state
either re-establishes the invariant (no match), or stops at a match
with a sentinel that is a suffix of the consumed part of the chunk and
with safe output that is a clean prefix of the consumed input. -/
theorem process_inv (S : Sentinels) (chunk : List Char) :
    ∀ (st : MatcherState) (consumed emitted : List Char),
      MatcherInv S st consumed emitted →
      ((process S st chunk).2.2 = none →
        MatcherInv S (process S st chunk).1 (consumed ++ chunk)
          (emitted ++ (process S st chunk).2.1)) ∧
      (∀ seq, (process S st chunk).2.2 = some seq →
        ∃ part, part <+: chunk ∧ seq ∈ S ∧ seq <:+ (consumed ++ part) ∧
          (emitted ++ (process S st chunk).2.1) <+: (consumed ++ part) ∧
          (∀ s ∈ S, s ≠ [] → ¬ s <:+: (emitted ++ (process S st chunk).2.1))) := by
  induction chunk with
  | nil =>
    intro st consumed emitted h
    constructor
    · intro _
      simpa [process] using h
    · intro seq hsome
      simp [process] at hsome
  | cons ch cs ih =>
    intro st consumed emitted h
    have hstep := processChar_inv S st ch consumed emitted h
    cases hr : (processChar S st ch).2.2 with
    | some seq0 =>
      obtain ⟨hst1, hout, hseqS, hsuf⟩ := hstep.2 seq0 hr
      have hpr : process S st (ch :: cs) =
          ((processChar S st ch).1, ((processChar S st ch).2.1).getD [], some seq0) := by
        simp only [process, hr]
      constructor
      · intro hnone
        rw [hpr] at hnone
        cases hnone
      · intro seq hsome
        rw [hpr] at hsome
        simp only [Option.some.injEq] at hsome
        subst hsome
        refine ⟨[ch], ⟨cs, rfl⟩, hseqS, hsuf, ?_, ?_⟩
        · rw [hpr]
          simp only [hout, Option.getD_none, List.append_nil]
          exact List.IsPrefix.trans ⟨st.buffered, h.decomp⟩ (List.prefix_append _ _)
        · rw [hpr]
          simp only [hout, Option.getD_none, List.append_nil]
          intro s hsS hsne hinf
          exact h.noSentinel s hsS hsne
            (isInfix_of_isInfix_of_isPrefix hinf ⟨st.buffered, h.decomp⟩)
    | none =>
      have hinv1 := hstep.1 hr
      have hih := ih (processChar S st ch).1 (consumed ++ [ch])
        (emitted ++ ((processChar S st ch).2.1).getD []) hinv1
      have hpr : process S st (ch :: cs) =
          ((process S (processChar S st ch).1 cs).1,
            ((processChar S st ch).2.1).getD [] ++
              (process S (processChar S st ch).1 cs).2.1,
            (process S (processChar S st ch).1 cs).2.2) := by
        simp only [process, hr]
      constructor
      · intro hnone
        rw [hpr] at hnone
        have hres := hih.1 hnone
        rw [hpr]
        rw [show consumed ++ ch :: cs = (consumed ++ [ch]) ++ cs by simp]
        rw [← List.append_assoc]
        exact hres
      · intro seq hsome
        rw [hpr] at hsome
        obtain ⟨part, hpart, hseqS, hsuf, hpre, hnosent⟩ := hih.2 seq hsome
        refine ⟨[ch] ++ part, ?_, hseqS, ?_, ?_, ?_⟩
        · obtain ⟨t, ht⟩ := hpart
          exact ⟨t, by simp [ht]⟩
        · rw [← List.append_assoc]
          exact hsuf
        · rw [hpr]
          simp only
          rw [← List.append_assoc, ← List.append_assoc]
          exact hpre
        · rw [hpr]
          intro s hsS hsne
          simp only
          rw [← List.append_assoc]
          exact hnosent s hsS hsne

/-- Stream-level invariant: feeding chunks from an invariant state. -/
theorem feed_inv (S : Sentinels) (chunks : List (List Char)) :
    ∀ (st : MatcherState) (consumed emitted : List Char),
      MatcherInv S st consumed emitted →
      ((feed S st chunks).2.2 = none →
        MatcherInv S (feed S st chunks).1 (consumed ++ chunks.flatten)
          (emitted ++ (feed S st chunks).2.1)) ∧
      (∀ seq, (feed S st chunks).2.2 = some seq →
        ∃ pfx, pfx <+: chunks.flatten ∧ seq ∈ S ∧ seq <:+ (consumed ++ pfx) ∧
          (emitted ++ (feed S st chunks).2.1) <+: (consumed ++ pfx) ∧
          (∀ s ∈ S, s ≠ [] → ¬ s <:+: (emitted ++ (feed S st chunks).2.1))) := by
  induction chunks with
  | nil =>
    intro st consumed emitted h
    constructor
    · intro _
      simpa [feed] using h
    · intro seq hsome
      simp [feed] at hsome
  | cons ch chs ih =>
    intro st consumed emitted h
    have hstep := process_inv S ch st consumed emitted h
    cases hr : (process S st ch).2.2 with
    | some seq0 =>
      have hfd : feed S st (ch :: chs) =
          ((process S st ch).1, (process S st ch).2.1, some seq0) := by
        simp only [feed, hr]
      obtain ⟨part, hpart, hseqS, hsuf, hpre, hnosent⟩ := hstep.2 seq0 hr
      constructor
      · intro hnone
        rw [hfd] at hnone
        cases hnone
      · intro seq hsome
        rw [hfd] at hsome
        simp only [Option.some.injEq] at hsome
        subst hsome
        refine ⟨part, ?_, hseqS, hsuf, ?_, ?_⟩
        · exact List.IsPrefix.trans hpart (by simp [List.flatten_cons])
        · rw [hfd]
          exact hpre
        · rw [hfd]
          exact hnosent
    | none =>
      have hinv1 := hstep.1 hr
      have hih := ih (process S st ch).1 (consumed ++ ch)
        (emitted ++ (process S st ch).2.1) hinv1
      have hfd : feed S st (ch :: chs) =
          ((feed S (process S st ch).1 chs).1,
            (process S st ch).2.1 ++ (feed S (process S st ch).1 chs).2.1,
            (feed S (process S st ch).1 chs).2.2) := by
        simp only [feed, hr]
      constructor
      · intro hnone
        rw [hfd] at hnone
        have hres := hih.1 hnone
        rw [hfd]
        rw [show consumed ++ (ch :: chs).flatten = (consumed ++ ch) ++ chs.flatten by
          simp [List.flatten_cons]]
        rw [← List.append_assoc]
        exact hres
      · intro seq hsome
        rw [hfd] at hsome
        obtain ⟨pfx, hpfx, hseqS, hsuf, hpre, hnosent⟩ := hih.2 seq hsome
        refine ⟨ch ++ pfx, ?_, hseqS, ?_, ?_, ?_⟩
        · obtain ⟨t, ht⟩ := hpfx
          refine ⟨t, ?_⟩
          simp [List.flatten_cons, ← ht]
        · rw [← List.append_assoc]
          exact hsuf
        · rw [hfd]
          simp only
          rw [← List.append_assoc, ← List.append_assoc]
          exact hpre
        · rw [hfd]
          intro s hsS hsne
          simp only
          rw [← List.append_assoc]
          exact hnosent s hsS hsne

/-- C1 counterexample: with sentinels `["abc", "bd"]` and input `"abd"`
in one chunk, the matcher releases nothing and reports the match `"bd"`
— but `concat(safe_prefixes) ++ matched_sentinel = "bd"` is NOT a
prefix of `"abd"` (the buffered `'a'`, held for the potential `"abc"`
match, is silently dropped when the `"bd"` walk completes). -/
theorem stop_sequence_counterexample :
    (feed [['a', 'b', 'c'], ['b', 'd']] initState [['a', 'b', 'd']]).2.1 = [] ∧
    (feed [['a', 'b', 'c'], ['b', 'd']] initState [['a', 'b', 'd']]).2.2 =
      some ['b', 'd'] ∧
    ¬ ((([] : List Char) ++ ['b', 'd']) <+: ['a', 'b', 'd']) := by
  refine ⟨by decide, by decide, by decide⟩

/-- C1 (amended): for a matcher built from any finite list of nonempty
sentinels and any chunking of the input: the concatenation of the
released safe prefixes is a prefix of the input; no sentinel in `S`
occurs as a substring of that concatenation; and when a match is
reported, the matched sentinel is an element of `S` and a suffix of the
consumed prefix of the input, which the safe prefixes are themselves a
prefix of.  (Buffered characters belonging to other partial matches are
dropped at a match, so `concat(safe_prefixes) ++ matched_sentinel` need
not reconstitute a prefix of the input.) -/
theorem stop_sequence_matcher_safety (S : Sentinels) (chunks : List (List Char))
    (hS : ∀ s ∈ S, s ≠ []) :
    (feed S initState chunks).2.1 <+: chunks.flatten ∧
    (∀ s ∈ S, ¬ s <:+: (feed S initState chunks).2.1) ∧
    (∀ seq, (feed S initState chunks).2.2 = some seq →
      seq ∈ S ∧ ∃ pfx, pfx <+: chunks.flatten ∧ seq <:+ pfx ∧
        (feed S initState chunks).2.1 <+: pfx) := by
  have hinv0 : MatcherInv S initState [] [] := by
    refine ⟨rfl, ?_, ?_, ?_⟩
    · intro b hb
      simp [initState] at hb
    · intro u hne hsuf _
      exact absurd (List.suffix_nil.1 hsuf) hne
    · intro s hsS hsne hinf
      have h1 := hinf.length_le
      have h2 : 0 < s.length := List.length_pos.2 hsne
      simp only [List.length_nil] at h1
      omega
  have hfd := feed_inv S chunks initState [] [] hinv0
  cases hm : (feed S initState chunks).2.2 with
  | none =>
    have hinv := hfd.1 hm
    have hpre : (feed S initState chunks).2.1 <+: chunks.flatten :=
      ⟨(feed S initState chunks).1.buffered, by simpa using hinv.decomp⟩
    refine ⟨hpre, ?_, ?_⟩
    · intro s hsS hinf
      exact hinv.noSentinel s hsS (hS s hsS)
        (by simpa using isInfix_of_isInfix_of_isPrefix hinf hpre)
    · intro seq hsome
      simp at hsome
  | some seq0 =>
    obtain ⟨pfx, hpfx, hseqS, hsuf, hpre, hnosent⟩ := hfd.2 seq0 hm
    simp only [List.nil_append] at hsuf hpre hnosent
    refine ⟨List.IsPrefix.trans hpre hpfx, ?_, ?_⟩
    · intro s hsS hinf
      exact hnosent s hsS (hS s hsS) hinf
    · intro seq hsome
      simp only [Option.some.injEq] at hsome
      subst hsome
      exact ⟨hseqS, pfx, hpfx, hsuf, hpre⟩

/-- Witness for `stop_sequence_matcher_safety` at a concrete sentinel
list and chunking. -/
theorem stop_sequence_matcher_safety_witness :
    (feed [['a', 'b']] initState [['x', 'a', 'b']]).2.1 <+: [['x', 'a', 'b']].flatten ∧
    ¬ ['a', 'b'] <:+: (feed [['a', 'b']] initState [['x', 'a', 'b']]).2.1 := by
  refine ⟨(stop_sequence_matcher_safety [['a', 'b']] [['x', 'a', 'b']] (by decide)).1,
    (stop_sequence_matcher_safety [['a', 'b']] [['x', 'a', 'b']] (by decide)).2.1
      ['a', 'b'] (by decide)⟩

end Clewdr
